import Mathlib

/-! Constrained LQR controller synthesis (`systems/controllers/constrained_lqr_controller.cc`).

A shallow embedding of `ConstrainedLQRController` (constructor, `SetupController`,
`CalcControl`) over an arbitrary linearly ordered field of scalars, so that every
statement holds in exact real arithmetic and can be evaluated over the rationals.

The rigid-body tree, the contact toolkit, Eigen's Householder QR and Drake's LQR
solver are collaborators: they are taken as parameters.  Eigen's dense-matrix
operations and Drake's automatic-differentiation helpers are modelled with their
run-time shape assertions made explicit as failures.
-/

namespace dairlib.systems

/-! ## Failures and the record of collaborator calls -/

/-- Fatal failures of `SetupController`: one constructor per `DRAKE_DEMAND` of the
source, plus Eigen's run-time shape assertions on dynamic matrices. -/
inductive SetupError where
  /-- Line 48: `DRAKE_DEMAND(q0.size() == num_positions_)`. -/
  | demand_q0_size
  /-- Line 49: `DRAKE_DEMAND(u0.size() == num_efforts_)`. -/
  | demand_u0_size
  /-- Line 50: `DRAKE_DEMAND(lambda0.size() == num_forces_)`. -/
  | demand_lambda0_size
  /-- Line 71: the comma initialiser `J << J_tree, J_contact` does not fit. -/
  | eigen_comma_initializer
  /-- An Eigen `block` / `leftCols` request outside the matrix (lines 83, 104, 105). -/
  | eigen_block
  /-- An Eigen product whose inner dimensions differ (lines 108, 109, 118). -/
  | eigen_product
  /-- Drake `autoDiffToGradientMatrix` on derivative vectors of different sizes. -/
  | eigen_gradient_size
  /-- Line 101: `DRAKE_DEMAND(autoDiffToValueMatrix(xdot0_autodiff).isZero(1e-6))`. -/
  | demand_equilibrium
  /-- Line 112: `DRAKE_DEMAND(Q.rows() == Q.cols())`. -/
  | demand_Q_square
  /-- Line 113: `DRAKE_DEMAND(R.rows() == R.cols())`. -/
  | demand_R_square
  /-- Line 114: `DRAKE_DEMAND(A_.rows() == Q.rows())`. -/
  | demand_A_Q
  /-- Line 115: `DRAKE_DEMAND(B_.cols() == R.rows())`. -/
  | demand_B_R
  deriving DecidableEq, Repr

/-- The failures that report a size or shape disagreement: every failure except the
equilibrium check of line 101. -/
def SetupError.isShapeMismatch : SetupError → Bool
  | .demand_equilibrium => false
  | _ => true

/-- The four validation demands of lines 112-115. -/
def SetupError.isQRValidation : SetupError → Bool
  | .demand_Q_square => true
  | .demand_R_square => true
  | .demand_A_Q => true
  | .demand_B_R => true
  | _ => false

/-- Calls into the collaborators, in the order `SetupController` makes them. -/
inductive Call where
  /-- Line 59: `tree_.doKinematics(q0)`. -/
  | doKinematics
  /-- Line 62: `tree_.positionConstraintsJacobian(k_cache)`. -/
  | positionConstraintsJacobian
  /-- Line 67: `contact_toolkit_->CalcContactJacobian(x0_autodiff)`. -/
  | CalcContactJacobian
  /-- Lines 79-80: `HouseholderQR<MatrixXd>(F.transpose()).householderQ()`. -/
  | householderQ
  /-- Line 97: `contact_toolkit_->CalcTimeDerivatives(...)`. -/
  | CalcTimeDerivatives
  /-- Line 117: `LinearQuadraticRegulator(A_, B_, Q, R)`. -/
  | LinearQuadraticRegulator
  deriving DecidableEq, Repr

/-- Result of running a stretch of `SetupController`: the collaborator calls made
so far and either the value computed or the fatal failure that stopped the run. -/
structure Outcome (β : Type) where
  calls : List Call
  result : Except SetupError β

/-- A step that calls no collaborator. -/
def Outcome.pure {β : Type} (r : Except SetupError β) : Outcome β := ⟨[], r⟩

/-- Sequencing: a failure stops the run, keeping the calls made up to it. -/
def Outcome.bind {β γ : Type} (o : Outcome β) (f : β → Outcome γ) : Outcome γ :=
  match o.result with
  | .error e => ⟨o.calls, .error e⟩
  | .ok b => ⟨o.calls ++ (f b).calls, (f b).result⟩

/-! ## Dense matrices with run-time dimensions (Eigen `MatrixXd`) -/

/-- A matrix with run-time dimensions; only the coefficients `coeff i j` with
`i < rows` and `j < cols` belong to it. -/
structure Mat (α : Type) where
  rows : Nat
  cols : Nat
  coeff : Nat → Nat → α

variable {α : Type}

/-- Two matrices with the same dimensions and the same coefficients. -/
def Mat.Same (A B : Mat α) : Prop :=
  A.rows = B.rows ∧ A.cols = B.cols ∧
    ∀ i j, i < A.rows → j < A.cols → A.coeff i j = B.coeff i j

/-- Default-constructed `MatrixXd`: 0 x 0. -/
def Mat.empty [Zero α] : Mat α := ⟨0, 0, fun _ _ => 0⟩

/-- `MatrixXd::Zero(r, c)`. -/
def Mat.Zeros [Zero α] (r c : Nat) : Mat α := ⟨r, c, fun _ _ => 0⟩

/-- `MatrixXd::Identity(n, n)`. -/
def Mat.Identity [Zero α] [One α] (n : Nat) : Mat α :=
  ⟨n, n, fun i j => if i = j then 1 else 0⟩

/-- `A.transpose()`. -/
def Mat.transpose (A : Mat α) : Mat α := ⟨A.cols, A.rows, fun i j => A.coeff j i⟩

/-- Coefficients of the product `A * B`, summing over the columns of `A`. -/
def Mat.prod [AddCommMonoid α] [Mul α] (A B : Mat α) : Mat α :=
  ⟨A.rows, B.cols, fun i j => ∑ k in Finset.range A.cols, A.coeff i k * B.coeff k j⟩

/-- Eigen `A * B`: asserts `A.cols() == B.rows()`. -/
def Mat.mul [AddCommMonoid α] [Mul α] (A B : Mat α) : Except SetupError (Mat α) :=
  if A.cols = B.rows then .ok (A.prod B) else .error .eigen_product

/-- Eigen `A.block(startRow, startCol, blockRows, blockCols)` on signed indices:
asserts that the requested block is non-negative in size and lies inside `A`. -/
def Mat.block (A : Mat α) (startRow startCol blockRows blockCols : Int) :
    Except SetupError (Mat α) :=
  if 0 ≤ startRow ∧ 0 ≤ blockRows ∧ startRow ≤ (A.rows : Int) - blockRows ∧
      0 ≤ startCol ∧ 0 ≤ blockCols ∧ startCol ≤ (A.cols : Int) - blockCols then
    .ok ⟨blockRows.toNat, blockCols.toNat,
      fun i j => A.coeff (startRow.toNat + i) (startCol.toNat + j)⟩
  else .error .eigen_block

/-- Eigen `A.leftCols(n)`, that is `A.block(0, 0, A.rows(), n)`. -/
def Mat.leftCols (A : Mat α) (n : Int) : Except SetupError (Mat α) :=
  A.block 0 0 A.rows n

/-- The comma initialiser `J << top, bottom` on a target with `cols` columns and
`top.rows + bottom.rows` rows: a block holding coefficients must span the whole
width of the target; a block without coefficients contributes nothing. -/
def Mat.commaInitializer (cols : Nat) (top bottom : Mat α) : Except SetupError (Mat α) :=
  if (top.rows = 0 ∨ top.cols = cols) ∧ (bottom.rows = 0 ∨ bottom.cols = cols) then
    .ok ⟨top.rows + bottom.rows, cols,
      fun i j => if i < top.rows then top.coeff i j else bottom.coeff (i - top.rows) j⟩
  else .error .eigen_comma_initializer

/-- Eigen `v.isZero(prec)`: every coefficient `x` satisfies `|x| <= |1| * prec`. -/
def isZero [LinearOrderedField α] (v : List α) (prec : α) : Bool :=
  v.all fun x => decide (|x| ≤ |(1 : α)| * prec)

/-! ## Automatic differentiation scalars (Eigen `AutoDiffScalar<VectorXd>`) -/

/-- Scalar carrying a value and a vector of partial derivatives; an empty
derivative vector is what a plain `double` converts to. -/
structure AutoDiffXd (α : Type) where
  value : α
  derivatives : List α

/-- Conversion of a plain scalar: `AutoDiffScalar(const Real& value)` leaves the
derivative vector empty. -/
def AutoDiffXd.ofScalar (v : α) : AutoDiffXd α := ⟨v, []⟩

/-- Drake `initializeAutoDiff(x)`: entry `i` has value `x(i)` and the `i`-th unit
vector of length `x.size()` as derivatives. -/
def initializeAutoDiff [Zero α] [One α] (x : List α) : List (AutoDiffXd α) :=
  (List.range x.length).map fun i =>
    ⟨x.getD i 0, (List.range x.length).map fun j => if j = i then 1 else 0⟩

/-- Drake `autoDiffToValueMatrix` on a vector. -/
def autoDiffToValueMatrix (v : List (AutoDiffXd α)) : List α := v.map AutoDiffXd.value

/-- Drake `autoDiffToValueMatrix` on a matrix. -/
def autoDiffToValueMat (A : Mat (AutoDiffXd α)) : Mat α :=
  ⟨A.rows, A.cols, fun i j => (A.coeff i j).value⟩

/-- The number of derivatives Drake reads off a vector: the largest size of a
derivative vector among its entries. -/
def numDerivatives (v : List (AutoDiffXd α)) : Nat :=
  v.foldl (fun n a => max n a.derivatives.length) 0

/-- Drake `autoDiffToGradientMatrix(v)`: one row per entry of `v`, one column per
derivative; an entry with an empty derivative vector gives a zero row, and the
assignment of a non-empty derivative vector of another size trips Eigen. -/
def autoDiffToGradientMatrix [Zero α] (v : List (AutoDiffXd α)) : Except SetupError (Mat α) :=
  if v.all fun a => a.derivatives.length = 0 ∨ a.derivatives.length = numDerivatives v then
    .ok ⟨v.length, numDerivatives v,
      fun i j => ((v.getD i ⟨0, []⟩).derivatives).getD j 0⟩
  else .error .eigen_gradient_size

/-! ## Collaborators -/

/-- The part of Drake's `RigidBodyTree<double>` the controller uses.
`positionConstraintsJacobian` stands for
`tree.positionConstraintsJacobian(tree.doKinematics(q))`. -/
structure RigidBodyTree (α : Type) where
  get_num_positions : Nat
  get_num_velocities : Nat
  get_num_actuators : Nat
  getNumPositionConstraints : Nat
  positionConstraintsJacobian : List α → Mat α

/-- The part of `multibody::ContactInfo` the controller uses. -/
structure ContactInfo where
  num_contacts : Nat

/-- The two operations of `multibody::ContactToolkit<AutoDiffXd>` the controller
calls, on vectors of automatic-differentiation scalars. -/
structure ContactToolkit (α : Type) where
  CalcContactJacobian : List (AutoDiffXd α) → Mat (AutoDiffXd α)
  CalcTimeDerivatives :
    List (AutoDiffXd α) → List (AutoDiffXd α) → List (AutoDiffXd α) → List (AutoDiffXd α)

/-- Drake `LinearQuadraticRegulatorResult`. -/
structure LinearQuadraticRegulatorResult (α : Type) where
  K : Mat α
  S : Mat α

/-- The numerical library routines called by `SetupController`:
`householderQ A` gives the coefficients of `HouseholderQR<MatrixXd>(A).householderQ()`
(a square matrix with as many rows as `A`), `LinearQuadraticRegulator` is Drake's
continuous-time solver. -/
structure Solvers (α : Type) where
  householderQ : Mat α → Nat → Nat → α
  LinearQuadraticRegulator : Mat α → Mat α → Mat α → Mat α → LinearQuadraticRegulatorResult α

/-- Modelled from the spec: the output record `AffineParams` (its declaration is not
among the sources): gain `K`, offset `E`, desired state and timestamp, each stored
by its setter. -/
structure AffineParams (α : Type) where
  K : Mat α
  E : List α
  desired_state : List α
  timestamp : α

/-! ## The controller -/

/-- The members of `ConstrainedLQRController`. -/
structure ConstrainedLQRController (α : Type) where
  tree_ : RigidBodyTree α
  contact_info_ : ContactInfo
  contact_toolkit_ : ContactToolkit α
  num_positions_ : Nat
  num_velocities_ : Nat
  num_states_ : Nat
  num_efforts_ : Nat
  num_forces_ : Nat
  A_ : Mat α
  B_ : Mat α
  lqr_result_ : LinearQuadraticRegulatorResult α
  K_ : Mat α
  E_ : List α
  x_desired_ : List α

/-- The constructor (lines 22-35): sizes are read off the tree and the contact
information; the matrices and vectors set by `SetupController` start empty. -/
def ConstrainedLQRController.create [Zero α] (tree : RigidBodyTree α)
    (contact_info : ContactInfo) (toolkit : ContactToolkit α) : ConstrainedLQRController α where
  tree_ := tree
  contact_info_ := contact_info
  contact_toolkit_ := toolkit
  num_positions_ := tree.get_num_positions
  num_velocities_ := tree.get_num_velocities
  num_states_ := tree.get_num_positions + tree.get_num_velocities
  num_efforts_ := tree.get_num_actuators
  num_forces_ := tree.getNumPositionConstraints + contact_info.num_contacts * 3
  A_ := Mat.empty
  B_ := Mat.empty
  lqr_result_ := ⟨Mat.empty, Mat.empty⟩
  K_ := Mat.empty
  E_ := []
  x_desired_ := []

section Setup

variable [LinearOrderedField α]

/-- Lines 48-50: the three size demands on `q0`, `u0` and `lambda0`. -/
def checkSizes (c : ConstrainedLQRController α) (q0 u0 lambda0 : List α) :
    Except SetupError Unit :=
  if q0.length ≠ c.num_positions_ then .error .demand_q0_size
  else if u0.length ≠ c.num_efforts_ then .error .demand_u0_size
  else if lambda0.length ≠ c.num_forces_ then .error .demand_lambda0_size
  else .ok ()

/-- Lines 53-54: `x0 << q0, VectorXd::Zero(num_velocities_)`. -/
def fullState (c : ConstrainedLQRController α) (q0 : List α) : List α :=
  q0 ++ List.replicate c.num_velocities_ 0

/-- Lines 55-71: the position-constraint Jacobian on top of the contact Jacobian
(present only with contacts), in a matrix with `num_positions_` columns. -/
def computeJacobian (c : ConstrainedLQRController α) (q0 : List α) : Outcome (Mat α) :=
  let x0_autodiff := initializeAutoDiff (fullState c q0)
  let J_tree := c.tree_.positionConstraintsJacobian q0
  let J_contact :=
    if c.contact_info_.num_contacts > 0 then
      autoDiffToValueMat (c.contact_toolkit_.CalcContactJacobian x0_autodiff)
    else Mat.empty
  ⟨[Call.doKinematics, Call.positionConstraintsJacobian] ++
      (if c.contact_info_.num_contacts > 0 then [Call.CalcContactJacobian] else []),
    Mat.commaInitializer c.num_positions_ J_tree J_contact⟩

/-- Lines 74-76: `F` is zero except for `J` on both diagonal blocks. -/
def computeF (J : Mat α) : Mat α :=
  ⟨2 * J.rows, 2 * J.cols, fun i j =>
    if i < J.rows ∧ j < J.cols then J.coeff i j
    else if J.rows ≤ i ∧ J.cols ≤ j then J.coeff (i - J.rows) (j - J.cols)
    else 0⟩

/-- Lines 79-80: the Householder factor of `F.transpose()` as a dense matrix,
square with as many rows as `F.transpose()`. -/
def householderFactor (lib : Solvers α) (F : Mat α) : Mat α :=
  ⟨F.transpose.rows, F.transpose.rows, lib.householderQ F.transpose⟩

/-- Lines 79-84: the trailing `q_decomp.cols() - F.rows()` columns of the Householder
factor of `F.transpose()`, transposed. -/
def nullSpaceProjector (lib : Solvers α) (J : Mat α) : Outcome (Mat α) :=
  let F := computeF J
  let q_decomp := householderFactor lib F
  ⟨[Call.householderQ],
    match q_decomp.block 0 F.rows q_decomp.rows ((q_decomp.cols : Int) - (F.rows : Int)) with
    | .ok P => .ok P.transpose
    | .error e => .error e⟩

/-- Lines 89-98: the dynamics evaluated on automatic-differentiation vectors. The
state is the head of the seeded vector `xul0_autodiff`; the control and the force
are converted from segments of the plain vector `xul0`. -/
def xdot0_autodiff (c : ConstrainedLQRController α) (x0 u0 lambda0 : List α) :
    List (AutoDiffXd α) :=
  let xul0 := x0 ++ u0 ++ lambda0
  let xul0_autodiff := initializeAutoDiff xul0
  let x0_autodiff := xul0_autodiff.take c.num_states_
  let u0_autodiff := ((xul0.drop c.num_states_).take c.num_efforts_).map AutoDiffXd.ofScalar
  let lambda0_autodiff := (xul0.drop (xul0.length - c.num_forces_)).map AutoDiffXd.ofScalar
  c.contact_toolkit_.CalcTimeDerivatives x0_autodiff u0_autodiff lambda0_autodiff

/-- The tolerance `1e-6` of line 101. -/
def equilibriumTolerance : α := 1 / 1000000

/-- Lines 97-101: evaluate the dynamics and demand that its value vanishes. -/
def checkEquilibrium (c : ConstrainedLQRController α) (x0 u0 lambda0 : List α) :
    Outcome (List (AutoDiffXd α)) :=
  let xdot := xdot0_autodiff c x0 u0 lambda0
  ⟨[Call.CalcTimeDerivatives],
    if isZero (autoDiffToValueMatrix xdot) equilibriumTolerance then .ok xdot
    else .error .demand_equilibrium⟩

/-- Lines 103-105: the gradient matrix `AB`, its first `num_states_` columns `A`
and its next `num_efforts_` columns `B`. -/
def extractAB (c : ConstrainedLQRController α) (xdot : List (AutoDiffXd α)) :
    Except SetupError (Mat α × Mat α) :=
  match autoDiffToGradientMatrix xdot with
  | .error e => .error e
  | .ok AB =>
    match AB.leftCols c.num_states_ with
    | .error e => .error e
    | .ok A =>
      match AB.block 0 c.num_states_ AB.rows c.num_efforts_ with
      | .error e => .error e
      | .ok B => .ok (A, B)

/-- Lines 108-109: `A_ = P * A * P.transpose()` and `B_ = P * B`. -/
def projectAB (P A B : Mat α) : Except SetupError (Mat α × Mat α) :=
  match P.mul A with
  | .error e => .error e
  | .ok PA =>
    match PA.mul P.transpose with
    | .error e => .error e
    | .ok A_ =>
      match P.mul B with
      | .error e => .error e
      | .ok B_ => .ok (A_, B_)

/-- What lines 47-109 hand over to the validation: the reference state, the
projector, the linearisation and its reduction. -/
structure Linearization (α : Type) where
  x0 : List α
  P : Mat α
  A : Mat α
  B : Mat α
  A_ : Mat α
  B_ : Mat α

/-- Lines 47-109 of `SetupController`: size demands, Jacobian, projector,
equilibrium check, linearisation and its projection. -/
def setupLinearization (lib : Solvers α) (c : ConstrainedLQRController α)
    (q0 u0 lambda0 : List α) : Outcome (Linearization α) :=
  (Outcome.pure (checkSizes c q0 u0 lambda0)).bind fun _ =>
  (computeJacobian c q0).bind fun J =>
  (nullSpaceProjector lib J).bind fun P =>
  (checkEquilibrium c (fullState c q0) u0 lambda0).bind fun xdot =>
  Outcome.pure
    (match extractAB c xdot with
     | .error e => .error e
     | .ok (A, B) =>
       match projectAB P A B with
       | .error e => .error e
       | .ok (A_, B_) => .ok ⟨fullState c q0, P, A, B, A_, B_⟩)

/-- Lines 112-115: the four demands relating `A_`, `B_`, `Q` and `R`. -/
def validateQR (A_ B_ Q R : Mat α) : Except SetupError Unit :=
  if Q.rows ≠ Q.cols then .error .demand_Q_square
  else if R.rows ≠ R.cols then .error .demand_R_square
  else if A_.rows ≠ Q.rows then .error .demand_A_Q
  else if B_.cols ≠ R.rows then .error .demand_B_R
  else .ok ()

/-- Lines 117-120: call the solver, re-expand the gain with `P`, store the offset
and the desired state. -/
def solveAndStore (lib : Solvers α) (c : ConstrainedLQRController α)
    (lin : Linearization α) (u0 : List α) (Q R : Mat α) :
    Outcome (ConstrainedLQRController α) :=
  let lqr_result := lib.LinearQuadraticRegulator lin.A_ lin.B_ Q R
  ⟨[Call.LinearQuadraticRegulator],
    match lqr_result.K.mul lin.P with
    | .error e => .error e
    | .ok K =>
      .ok { c with A_ := lin.A_, B_ := lin.B_, lqr_result_ := lqr_result,
                   K_ := K, E_ := u0, x_desired_ := lin.x0 }⟩

/-- `ConstrainedLQRController::SetupController(q0, u0, lambda0, Q, R)`. -/
def SetupController (lib : Solvers α) (c : ConstrainedLQRController α)
    (q0 u0 lambda0 : List α) (Q R : Mat α) : Outcome (ConstrainedLQRController α) :=
  (setupLinearization lib c q0 u0 lambda0).bind fun lin =>
  (Outcome.pure (validateQR lin.A_ lin.B_ Q R)).bind fun _ =>
  solveAndStore lib c lin u0 Q R

/-- `ConstrainedLQRController::CalcControl(context, control)`; of the context only
`context.get_time()` is read. -/
def CalcControl (c : ConstrainedLQRController α) (context_time : α) : AffineParams α where
  K := c.K_
  E := c.E_
  desired_state := c.x_desired_
  timestamp := context_time

end Setup

/-! ## Specification vocabulary for the projector -/

/-- The coefficients `Qc` are those of an orthogonal factor of a QR factorisation of
`A`: the square matrix `Qc` of size `A.rows` has orthonormal columns and `A = Qc * Rc`
for some upper-trapezoidal `Rc` (zero below the diagonal). -/
def IsQRFactor [Field α] (A : Mat α) (Qc : Nat → Nat → α) : Prop :=
  (∀ i j, i < A.rows → j < A.rows →
    ∑ k in Finset.range A.rows, Qc k i * Qc k j = if i = j then 1 else 0) ∧
  ∃ Rc : Nat → Nat → α, (∀ i j, j < i → Rc i j = 0) ∧
    ∀ i j, i < A.rows → j < A.cols →
      A.coeff i j = ∑ k in Finset.range A.rows, Qc i k * Rc k j

/-- The matrix of `A` on finite index types, for Mathlib's `Matrix.rank`. -/
def Mat.toMatrix (A : Mat α) : Matrix (Fin A.rows) (Fin A.cols) α :=
  fun i j => A.coeff i j

/-! ## Arithmetic on automatic-differentiation scalars and affine dynamics

Used to build concrete dynamics `xdot = M x + N u` for the collaborator
`CalcTimeDerivatives`. -/

section Dynamics

variable [LinearOrderedField α]

/-- Eigen `AutoDiffScalar::operator+`: values add; an empty derivative vector is
first made coherent with the other one (resized to its length and zeroed). -/
def AutoDiffXd.add (a b : AutoDiffXd α) : AutoDiffXd α :=
  ⟨a.value + b.value,
    if a.derivatives.length = 0 then b.derivatives
    else if b.derivatives.length = 0 then a.derivatives
    else List.zipWith (fun x y => x + y) a.derivatives b.derivatives⟩

/-- Eigen `operator*(double, AutoDiffScalar)`: value and derivatives are scaled. -/
def AutoDiffXd.scale (k : α) (a : AutoDiffXd α) : AutoDiffXd α :=
  ⟨k * a.value, a.derivatives.map fun d => k * d⟩

/-- One row of a constant matrix times a vector of automatic-differentiation
scalars. -/
def AutoDiffXd.dot (row : List α) (v : List (AutoDiffXd α)) : AutoDiffXd α :=
  (List.zipWith AutoDiffXd.scale row v).foldl AutoDiffXd.add ⟨0, []⟩

/-- The affine dynamics `xdot(x, u, lambda) = M x + N u` with constant matrices
given by rows. -/
def affineDynamics (M N : List (List α)) (x u _lambda : List (AutoDiffXd α)) :
    List (AutoDiffXd α) :=
  List.zipWith (fun mrow nrow => (AutoDiffXd.dot mrow x).add (AutoDiffXd.dot nrow u)) M N

end Dynamics

/-! ## A planar example over the rationals

Two positions, two velocities, one actuator, one position constraint with Jacobian
row `[3, 4]`, no contacts; dynamics `xdot = M x + N u` with
`M [q; v] = (v₁, v₂, 0, 0)` and `N u = (0, 0, u, 0)`. -/

/-- The example constraint Jacobian, the single row `[3, 4]`. -/
def exampleJ : Mat ℚ := ⟨1, 2, fun _ j => if j = 0 then 3 else 4⟩

/-- The example tree. -/
def exampleTree : RigidBodyTree ℚ where
  get_num_positions := 2
  get_num_velocities := 2
  get_num_actuators := 1
  getNumPositionConstraints := 1
  positionConstraintsJacobian := fun _ => exampleJ

/-- State matrix of the example dynamics, by rows. -/
def exampleM : List (List ℚ) := [[0, 0, 1, 0], [0, 0, 0, 1], [0, 0, 0, 0], [0, 0, 0, 0]]

/-- Input matrix of the example dynamics, by rows. -/
def exampleN : List (List ℚ) := [[0], [0], [1], [0]]

/-- The example contact toolkit: no contact Jacobian, affine dynamics. -/
def exampleToolkit : ContactToolkit ℚ where
  CalcContactJacobian := fun _ => ⟨0, 0, fun _ _ => ⟨0, []⟩⟩
  CalcTimeDerivatives := affineDynamics exampleM exampleN

/-- The example controller, as constructed. -/
def exampleController : ConstrainedLQRController ℚ :=
  ConstrainedLQRController.create exampleTree ⟨0⟩ exampleToolkit

/-- Coefficients of the Householder factor of `F.transpose()` for the Jacobian row
`[3, 4]`: the product of the two reflections Eigen builds, by rows. -/
def exampleQCoeff : List (List ℚ) :=
  [[-3/5, 0, 12/25, 16/25],
   [-4/5, 0, -9/25, -12/25],
   [0, -3/5, 16/25, -12/25],
   [0, -4/5, -12/25, 9/25]]

/-- A matrix given by its list of rows. -/
def Mat.ofRows (r c : Nat) (l : List (List ℚ)) : Mat ℚ :=
  ⟨r, c, fun i j => (l.getD i []).getD j 0⟩

/-- The example solvers: the Householder factor above and a solver returning the
reduced gain `[1, 2]`. -/
def exampleSolvers : Solvers ℚ where
  householderQ := fun _ i j => (exampleQCoeff.getD i []).getD j 0
  LinearQuadraticRegulator := fun _ _ _ _ => ⟨Mat.ofRows 1 2 [[1, 2]], Mat.Identity 2⟩

/-- A tree whose single position constraint has the zero Jacobian row `[0, 0]`: the
Jacobian has one row and rank zero. -/
def degenerateTree : RigidBodyTree ℚ where
  get_num_positions := 2
  get_num_velocities := 2
  get_num_actuators := 1
  getNumPositionConstraints := 1
  positionConstraintsJacobian := fun _ => ⟨1, 2, fun _ _ => 0⟩

/-- The controller of the degenerate tree, with the example dynamics. -/
def degenerateController : ConstrainedLQRController ℚ :=
  ConstrainedLQRController.create degenerateTree ⟨0⟩ exampleToolkit

/-- Solvers for the degenerate tree: the Householder factor of a zero matrix is the
identity. -/
def degenerateSolvers : Solvers ℚ where
  householderQ := fun _ i j => if i = j then 1 else 0
  LinearQuadraticRegulator := fun _ _ _ _ => ⟨Mat.ofRows 1 2 [[1, 2]], Mat.Identity 2⟩

/-- A floating-base tree with a quaternion: seven positions, six velocities, one
actuator, no position constraints. -/
def quaternionTree : RigidBodyTree ℚ where
  get_num_positions := 7
  get_num_velocities := 6
  get_num_actuators := 1
  getNumPositionConstraints := 0
  positionConstraintsJacobian := fun _ => ⟨0, 7, fun _ _ => 0⟩

/-! ## Sequencing lemmas -/

section Lemmas

variable [LinearOrderedField α]

/-- A sequenced run succeeds exactly when both parts do. -/
theorem Outcome.bind_result_ok {β γ : Type} (o : Outcome β) (f : β → Outcome γ) (x : γ) :
    (o.bind f).result = .ok x ↔ ∃ b, o.result = .ok b ∧ (f b).result = .ok x := by
  unfold Outcome.bind
  cases h : o.result with
  | error e => simp
  | ok b => simp

/-- A sequenced run fails in its first part or, after it succeeded, in its second. -/
theorem Outcome.bind_result_error {β γ : Type} (o : Outcome β) (f : β → Outcome γ)
    (e : SetupError) :
    (o.bind f).result = .error e ↔
      o.result = .error e ∨ ∃ b, o.result = .ok b ∧ (f b).result = .error e := by
  unfold Outcome.bind
  cases h : o.result with
  | error e2 => simp
  | ok b => simp

/-- A failing first part leaves only its own calls. -/
theorem Outcome.bind_calls_of_error {β γ : Type} (o : Outcome β) (f : β → Outcome γ)
    (e : SetupError) (h : o.result = .error e) : (o.bind f).calls = o.calls := by
  unfold Outcome.bind
  rw [h]

/-- After a successful first part the calls of both parts are recorded in order. -/
theorem Outcome.bind_calls_of_ok {β γ : Type} (o : Outcome β) (f : β → Outcome γ)
    (b : β) (h : o.result = .ok b) : (o.bind f).calls = o.calls ++ (f b).calls := by
  unfold Outcome.bind
  rw [h]

/-- A run ends in a failure or in a value. -/
theorem Outcome.result_cases {β : Type} (o : Outcome β) :
    (∃ e, o.result = .error e) ∨ ∃ b, o.result = .ok b := by
  cases h : o.result with
  | error e => exact Or.inl ⟨e, rfl⟩
  | ok b => exact Or.inr ⟨b, rfl⟩

/-- What a successful run of lines 47-109 went through. -/
theorem setupLinearization_ok (lib : Solvers α) (c : ConstrainedLQRController α)
    (q0 u0 lambda0 : List α) (lin : Linearization α)
    (h : (setupLinearization lib c q0 u0 lambda0).result = .ok lin) :
    checkSizes c q0 u0 lambda0 = .ok () ∧
    ∃ J P xdot A B, (computeJacobian c q0).result = .ok J ∧
      (nullSpaceProjector lib J).result = .ok P ∧
      (checkEquilibrium c (fullState c q0) u0 lambda0).result = .ok xdot ∧
      extractAB c xdot = .ok (A, B) ∧
      projectAB P A B = .ok (lin.A_, lin.B_) ∧
      lin.x0 = fullState c q0 ∧ lin.P = P ∧ lin.A = A ∧ lin.B = B := by
  unfold setupLinearization at h
  rw [Outcome.bind_result_ok] at h
  obtain ⟨u, hu, h⟩ := h
  rw [Outcome.bind_result_ok] at h
  obtain ⟨J, hJ, h⟩ := h
  rw [Outcome.bind_result_ok] at h
  obtain ⟨P, hP, h⟩ := h
  rw [Outcome.bind_result_ok] at h
  obtain ⟨xdot, hx, h⟩ := h
  refine ⟨hu, J, P, xdot, ?_⟩
  simp only [Outcome.pure] at h
  split at h
  · cases h
  · rename_i A B hAB
    split at h
    · cases h
    · rename_i A_ B_ hp
      cases h
      exact ⟨A, B, hJ, hP, hx, hAB, hp, rfl, rfl, rfl, rfl⟩

/-- What a successful run of `SetupController` went through and stored. -/
theorem SetupController_ok (lib : Solvers α) (c : ConstrainedLQRController α)
    (q0 u0 lambda0 : List α) (Q R : Mat α) (c2 : ConstrainedLQRController α)
    (h : (SetupController lib c q0 u0 lambda0 Q R).result = .ok c2) :
    ∃ lin, (setupLinearization lib c q0 u0 lambda0).result = .ok lin ∧
      validateQR lin.A_ lin.B_ Q R = .ok () ∧
      (lib.LinearQuadraticRegulator lin.A_ lin.B_ Q R).K.cols = lin.P.rows ∧
      c2.K_ = (lib.LinearQuadraticRegulator lin.A_ lin.B_ Q R).K.prod lin.P ∧
      c2.E_ = u0 ∧ c2.x_desired_ = lin.x0 := by
  unfold SetupController at h
  rw [Outcome.bind_result_ok] at h
  obtain ⟨lin, hlin, h⟩ := h
  rw [Outcome.bind_result_ok] at h
  obtain ⟨u, hv, h⟩ := h
  refine ⟨lin, hlin, hv, ?_⟩
  simp only [solveAndStore, Mat.mul] at h
  split at h
  · cases h
  · rename_i K hK
    split at hK
    · rename_i hdim
      cases hK
      cases h
      exact ⟨hdim, rfl, rfl, rfl⟩
    · cases hK

/-! ## Shapes produced by the stages -/

/-- The projector exists exactly when `J` has no more rows than columns, and is then
the transposed trailing block of the Householder factor. -/
theorem nullSpaceProjector_result (lib : Solvers α) (J : Mat α) :
    (nullSpaceProjector lib J).result =
      if J.rows ≤ J.cols then
        .ok ⟨2 * J.cols - 2 * J.rows, 2 * J.cols,
          fun i j => lib.householderQ (computeF J).transpose j (2 * J.rows + i)⟩
      else .error .eigen_block := by
  simp only [nullSpaceProjector, householderFactor, Mat.block, computeF, Mat.transpose]
  by_cases h : J.rows ≤ J.cols
  · have h1 : (0 : Int) ≤ 0 ∧ (0 : Int) ≤ ((2 * J.cols : Nat) : Int) ∧
        (0 : Int) ≤ ((2 * J.cols : Nat) : Int) - ((2 * J.cols : Nat) : Int) ∧
        (0 : Int) ≤ ((2 * J.rows : Nat) : Int) ∧
        (0 : Int) ≤ ((2 * J.cols : Nat) : Int) - ((2 * J.rows : Nat) : Int) ∧
        ((2 * J.rows : Nat) : Int) ≤
          ((2 * J.cols : Nat) : Int) - (((2 * J.cols : Nat) : Int) - ((2 * J.rows : Nat) : Int)) := by
      omega
    have h2 : (((2 * J.cols : Nat) : Int) - ((2 * J.rows : Nat) : Int)).toNat
        = 2 * J.cols - 2 * J.rows := by omega
    rw [if_pos h1, if_pos h]
    simp only [h2, Mat.transpose, Int.toNat_ofNat, Int.toNat_zero, Nat.zero_add]
  · have h1 : ¬ ((0 : Int) ≤ 0 ∧ (0 : Int) ≤ ((2 * J.cols : Nat) : Int) ∧
        (0 : Int) ≤ ((2 * J.cols : Nat) : Int) - ((2 * J.cols : Nat) : Int) ∧
        (0 : Int) ≤ ((2 * J.rows : Nat) : Int) ∧
        (0 : Int) ≤ ((2 * J.cols : Nat) : Int) - ((2 * J.rows : Nat) : Int) ∧
        ((2 * J.rows : Nat) : Int) ≤
          ((2 * J.cols : Nat) : Int) - (((2 * J.cols : Nat) : Int) - ((2 * J.rows : Nat) : Int))) := by
      omega
    rw [if_neg h1, if_neg h]

/-- Shape and coefficients of a projector that was formed. -/
theorem nullSpaceProjector_ok (lib : Solvers α) (J P : Mat α)
    (h : (nullSpaceProjector lib J).result = .ok P) :
    J.rows ≤ J.cols ∧ P.rows = 2 * J.cols - 2 * J.rows ∧ P.cols = 2 * J.cols ∧
      ∀ i j, P.coeff i j = lib.householderQ (computeF J).transpose j (2 * J.rows + i) := by
  rw [nullSpaceProjector_result] at h
  split at h
  · rename_i hle
    cases h
    exact ⟨hle, rfl, rfl, fun _ _ => rfl⟩
  · cases h

omit [LinearOrderedField α] in
/-- Shape and coefficients of a matrix filled by the comma initialiser. -/
theorem Mat.commaInitializer_ok (cols : Nat) (top bottom J : Mat α)
    (h : Mat.commaInitializer cols top bottom = .ok J) :
    J.cols = cols ∧ J.rows = top.rows + bottom.rows ∧
      ∀ i j, J.coeff i j =
        if i < top.rows then top.coeff i j else bottom.coeff (i - top.rows) j := by
  unfold Mat.commaInitializer at h
  split at h
  · cases h
    exact ⟨rfl, rfl, fun _ _ => rfl⟩
  · cases h

/-- The assembled Jacobian has `num_positions_` columns. -/
theorem computeJacobian_ok (c : ConstrainedLQRController α) (q0 : List α) (J : Mat α)
    (h : (computeJacobian c q0).result = .ok J) : J.cols = c.num_positions_ := by
  exact (Mat.commaInitializer_ok _ _ _ _ h).1

/-- Rows of the assembled Jacobian: the position-constraint rows come first. -/
theorem computeJacobian_rows (c : ConstrainedLQRController α) (q0 : List α) (J : Mat α)
    (h : (computeJacobian c q0).result = .ok J) :
    J.rows = (c.tree_.positionConstraintsJacobian q0).rows +
        (if c.contact_info_.num_contacts > 0 then
          autoDiffToValueMat (c.contact_toolkit_.CalcContactJacobian
            (initializeAutoDiff (fullState c q0)))
         else Mat.empty).rows ∧
      ∀ i j, i < (c.tree_.positionConstraintsJacobian q0).rows →
        J.coeff i j = (c.tree_.positionConstraintsJacobian q0).coeff i j := by
  have h2 : Mat.commaInitializer c.num_positions_ (c.tree_.positionConstraintsJacobian q0)
      (if c.contact_info_.num_contacts > 0 then
          autoDiffToValueMat (c.contact_toolkit_.CalcContactJacobian
            (initializeAutoDiff (fullState c q0)))
         else Mat.empty) = .ok J := h
  obtain ⟨-, hr, hc⟩ := Mat.commaInitializer_ok _ _ _ J h2
  refine ⟨hr, fun i j hi => ?_⟩
  rw [hc, if_pos hi]

omit [LinearOrderedField α] in
/-- Shape, bounds and coefficients of a block that was extracted. -/
theorem Mat.block_ok (A B : Mat α) (i j p q : Int) (h : A.block i j p q = .ok B) :
    B.rows = p.toNat ∧ B.cols = q.toNat ∧ 0 ≤ i ∧ 0 ≤ p ∧ i + p ≤ A.rows ∧
      0 ≤ j ∧ 0 ≤ q ∧ j + q ≤ A.cols ∧
      ∀ a b, B.coeff a b = A.coeff (i.toNat + a) (j.toNat + b) := by
  unfold Mat.block at h
  split at h
  · rename_i hc
    cases h
    refine ⟨rfl, rfl, hc.1, hc.2.1, by omega, hc.2.2.2.1, hc.2.2.2.2.1, by omega, fun _ _ => rfl⟩
  · cases h

/-- Shape and coefficients of a gradient matrix that was formed. -/
theorem autoDiffToGradientMatrix_ok (v : List (AutoDiffXd α)) (AB : Mat α)
    (h : autoDiffToGradientMatrix v = .ok AB) :
    AB.rows = v.length ∧ AB.cols = numDerivatives v ∧
      ∀ i j, AB.coeff i j = ((v.getD i ⟨0, []⟩).derivatives).getD j 0 := by
  unfold autoDiffToGradientMatrix at h
  split at h
  · cases h
    exact ⟨rfl, rfl, fun _ _ => rfl⟩
  · cases h

/-- Shapes and coefficients of the extracted `A` and `B`. -/
theorem extractAB_ok (c : ConstrainedLQRController α) (xdot : List (AutoDiffXd α))
    (A B : Mat α) (h : extractAB c xdot = .ok (A, B)) :
    A.rows = xdot.length ∧ A.cols = c.num_states_ ∧
      B.rows = xdot.length ∧ B.cols = c.num_efforts_ ∧
      c.num_states_ + c.num_efforts_ ≤ numDerivatives xdot ∧
      (∀ i j, A.coeff i j = ((xdot.getD i ⟨0, []⟩).derivatives).getD j 0) ∧
      ∀ i j, B.coeff i j = ((xdot.getD i ⟨0, []⟩).derivatives).getD (c.num_states_ + j) 0 := by
  unfold extractAB at h
  split at h
  · cases h
  · rename_i AB hAB
    obtain ⟨hr, hc, hco⟩ := autoDiffToGradientMatrix_ok xdot AB hAB
    split at h
    · cases h
    · rename_i A2 hA
      split at h
      · cases h
      · rename_i B2 hB
        cases h
        obtain ⟨a1, a2, -, -, -, -, -, a8, a9⟩ := Mat.block_ok AB A 0 0 _ _ hA
        obtain ⟨b1, b2, -, -, -, -, -, b8, b9⟩ := Mat.block_ok AB B 0 _ _ _ hB
        simp only [Int.toNat_ofNat, Int.toNat_zero, Nat.zero_add] at a1 a2 a9 b1 b2 b9
        refine ⟨by omega, a2, by omega, b2, by omega, ?_, ?_⟩
        · intro i j
          rw [a9, hco]
        · intro i j
          rw [b9, hco]

/-- The reduction succeeds only with matching inner dimensions and gives the two products. -/
theorem projectAB_ok (P A B A2 B2 : Mat α) (h : projectAB P A B = .ok (A2, B2)) :
    P.cols = A.rows ∧ A.cols = P.cols ∧ P.cols = B.rows ∧
      A2 = (P.prod A).prod P.transpose ∧ B2 = P.prod B := by
  simp only [projectAB, Mat.mul] at h
  split at h
  · cases h
  · rename_i PA hPA
    split at h
    · cases h
    · rename_i A3 hA
      split at h
      · cases h
      · rename_i B3 hB
        simp only [Except.ok.injEq, Prod.mk.injEq] at h
        split at hPA
        · rename_i h1
          cases hPA
          split at hA
          · rename_i h2
            cases hA
            split at hB
            · rename_i h3
              cases hB
              exact ⟨h1, h2, h3, h.1.symm, h.2.symm⟩
            · cases hB
          · cases hA
        · cases hPA

omit [LinearOrderedField α] in
/-- The validation passes exactly when its four demands hold. -/
theorem validateQR_ok (A2 B2 Q R : Mat α) :
    validateQR A2 B2 Q R = .ok () ↔
      Q.rows = Q.cols ∧ R.rows = R.cols ∧ A2.rows = Q.rows ∧ B2.cols = R.rows := by
  unfold validateQR
  split_ifs with h1 h2 h3 h4 <;> simp <;> omega

omit [LinearOrderedField α] in
/-- A failed validation reports one of its four demands. -/
theorem validateQR_error (A2 B2 Q R : Mat α) (e : SetupError)
    (h : validateQR A2 B2 Q R = .error e) : e.isQRValidation = true := by
  unfold validateQR at h
  split at h
  · cases h; rfl
  · split at h
    · cases h; rfl
    · split at h
      · cases h; rfl
      · split at h
        · cases h; rfl
        · cases h

end Lemmas

section Claims

variable [LinearOrderedField α]

/-- A result that tests as a success carries a value. -/
theorem Except.exists_ok_of_toBool {ε β : Type} (r : Except ε β) (h : r.toBool = true) :
    ∃ b, r = .ok b := by
  cases r with
  | error e => simp [Except.toBool] at h
  | ok b => exact ⟨b, rfl⟩

/-- The example setup at the origin with `Q = I₂`, `R = I₁` completes. -/
theorem example_setup_succeeds :
    ∃ c2, (SetupController exampleSolvers exampleController [0, 0] [0] [0]
      (Mat.Identity 2) (Mat.Identity 1)).result = .ok c2 := by
  apply Except.exists_ok_of_toBool
  simp [SetupController, Outcome.bind, Outcome.pure, setupLinearization, checkSizes,
    exampleController, ConstrainedLQRController.create, exampleTree, exampleJ, computeJacobian,
    Mat.commaInitializer, nullSpaceProjector, householderFactor, Mat.block, computeF,
    exampleSolvers, Mat.ofRows,
    Mat.transpose, checkEquilibrium, xdot0_autodiff, exampleToolkit, affineDynamics, exampleM,
    exampleN, AutoDiffXd.dot, AutoDiffXd.scale, AutoDiffXd.add, isZero, autoDiffToValueMatrix,
    initializeAutoDiff, fullState, AutoDiffXd.ofScalar, equilibriumTolerance, List.range,
    List.range.loop, extractAB, autoDiffToGradientMatrix, numDerivatives, Mat.leftCols,
    projectAB, Mat.mul, Mat.prod, validateQR, Mat.Identity, solveAndStore, Mat.empty,
    Except.toBool]

/-- The example with control `u0 = [1]` and `Q = I₃` stops at the equilibrium demand after four collaborator calls. -/
theorem example_nonequilibrium_run :
    SetupController exampleSolvers exampleController [0, 0] [1] [0]
      (Mat.Identity 3) (Mat.Identity 1) =
    ⟨[Call.doKinematics, Call.positionConstraintsJacobian, Call.householderQ,
      Call.CalcTimeDerivatives], .error .demand_equilibrium⟩ := by
  simp [SetupController, Outcome.bind, Outcome.pure, setupLinearization, checkSizes,
    exampleController, ConstrainedLQRController.create, exampleTree, exampleJ, computeJacobian,
    Mat.commaInitializer, nullSpaceProjector, householderFactor, Mat.block, computeF,
    exampleSolvers, Mat.ofRows,
    Mat.transpose, checkEquilibrium, xdot0_autodiff, exampleToolkit, affineDynamics, exampleM,
    exampleN, AutoDiffXd.dot, AutoDiffXd.scale, AutoDiffXd.add, isZero, autoDiffToValueMatrix,
    initializeAutoDiff, fullState, AutoDiffXd.ofScalar, equilibriumTolerance, List.range,
    List.range.loop, Mat.empty]
  norm_num

/-- A call recorded by a sequenced run was made by one of its parts. -/
theorem Outcome.mem_bind_calls {β γ : Type} (o : Outcome β) (f : β → Outcome γ) (x : Call)
    (h : x ∈ (o.bind f).calls) : x ∈ o.calls ∨ ∃ b, o.result = .ok b ∧ x ∈ (f b).calls := by
  unfold Outcome.bind at h
  cases hr : o.result with
  | error e =>
    rw [hr] at h
    exact Or.inl h
  | ok b =>
    rw [hr] at h
    simp only [List.mem_append] at h
    rcases h with h | h
    · exact Or.inl h
    · exact Or.inr ⟨b, rfl, h⟩

/-- Lines 47-109 never call the solver. -/
theorem setupLinearization_calls (lib : Solvers α) (c : ConstrainedLQRController α)
    (q0 u0 lambda0 : List α) :
    Call.LinearQuadraticRegulator ∉ (setupLinearization lib c q0 u0 lambda0).calls := by
  intro h
  unfold setupLinearization at h
  rcases Outcome.mem_bind_calls _ _ _ h with h | ⟨_, _, h⟩
  · simp [Outcome.pure] at h
  rcases Outcome.mem_bind_calls _ _ _ h with h | ⟨_, _, h⟩
  · simp only [computeJacobian] at h
    split_ifs at h <;> simp at h
  rcases Outcome.mem_bind_calls _ _ _ h with h | ⟨_, _, h⟩
  · simp [nullSpaceProjector] at h
  rcases Outcome.mem_bind_calls _ _ _ h with h | ⟨_, _, h⟩
  · simp [checkEquilibrium] at h
  · simp [Outcome.pure] at h

/-- The solver is called exactly when lines 47-115 all pass. -/
theorem SetupController_calls_solver (lib : Solvers α) (c : ConstrainedLQRController α)
    (q0 u0 lambda0 : List α) (Q R : Mat α) :
    Call.LinearQuadraticRegulator ∈ (SetupController lib c q0 u0 lambda0 Q R).calls ↔
      ∃ lin, (setupLinearization lib c q0 u0 lambda0).result = .ok lin ∧
        validateQR lin.A_ lin.B_ Q R = .ok () := by
  constructor
  · intro h
    unfold SetupController at h
    rcases Outcome.mem_bind_calls _ _ _ h with h | ⟨lin, hlin, h⟩
    · exact absurd h (setupLinearization_calls lib c q0 u0 lambda0)
    rcases Outcome.mem_bind_calls _ _ _ h with h | ⟨u, hv, h⟩
    · simp [Outcome.pure] at h
    · exact ⟨lin, hlin, hv⟩
  · rintro ⟨lin, hlin, hv⟩
    unfold SetupController
    rw [Outcome.bind_calls_of_ok _ _ lin hlin]
    have hv2 : (Outcome.pure (validateQR lin.A_ lin.B_ Q R)).result = .ok () := hv
    rw [Outcome.bind_calls_of_ok _ _ () hv2]
    simp [solveAndStore]

/-- Shapes after a successful run of lines 47-109. -/
theorem setupLinearization_shapes (lib : Solvers α) (c : ConstrainedLQRController α)
    (q0 u0 lambda0 : List α) (lin : Linearization α)
    (h : (setupLinearization lib c q0 u0 lambda0).result = .ok lin) :
    ∃ J, (computeJacobian c q0).result = .ok J ∧ J.rows ≤ J.cols ∧
      (nullSpaceProjector lib J).result = .ok lin.P ∧
      lin.P.rows = 2 * c.num_positions_ - 2 * J.rows ∧
      lin.P.cols = 2 * c.num_positions_ ∧
      c.num_states_ = 2 * c.num_positions_ ∧
      lin.A_.rows = lin.P.rows ∧ lin.B_.cols = c.num_efforts_ := by
  obtain ⟨-, J, P, xdot, A, B, hJ, hP, -, hAB, hp, -, hPe, -, -⟩ :=
    setupLinearization_ok lib c q0 u0 lambda0 lin h
  subst hPe
  obtain ⟨hle, hPr, hPc, -⟩ := nullSpaceProjector_ok lib J lin.P hP
  have hJc := computeJacobian_ok c q0 J hJ
  obtain ⟨-, hAc, -, hBc, -, -, -⟩ := extractAB_ok c xdot A B hAB
  obtain ⟨-, h2, -, hA2, hB2⟩ := projectAB_ok lin.P A B lin.A_ lin.B_ hp
  refine ⟨J, hJ, hle, hP, ?_, ?_, ?_, ?_, ?_⟩
  · rw [hPr, hJc]
  · rw [hPc, hJc]
  · rw [← hAc, h2, hPc, hJc]
  · rw [hA2]; rfl
  · rw [hB2]; exact hBc

/-- C6: after a successful `SetupController(q0, u0, lambda0, Q, R)` every
`CalcControl` at time `t` emits the gain `K_reduced * P`, the offset `u0`, the desired
state `[q0; 0, ..., 0]` (with `num_velocities_` zeros) and the timestamp `t`; the gain,
offset and desired state are the same at every invocation. -/
theorem CalcControl_emits_setup_result (lib : Solvers α) (c : ConstrainedLQRController α)
    (q0 u0 lambda0 : List α) (Q R : Mat α) (c2 : ConstrainedLQRController α)
    (h : (SetupController lib c q0 u0 lambda0 Q R).result = .ok c2) :
    ∃ lin, (setupLinearization lib c q0 u0 lambda0).result = .ok lin ∧
      ∀ t : α, CalcControl c2 t =
        ⟨(lib.LinearQuadraticRegulator lin.A_ lin.B_ Q R).K.prod lin.P, u0,
          q0 ++ List.replicate c.num_velocities_ 0, t⟩ := by
  obtain ⟨lin, hlin, -, -, hK, hE, hx⟩ := SetupController_ok lib c q0 u0 lambda0 Q R c2 h
  obtain ⟨-, J, P, xdot, A, B, -, -, -, -, -, hx0, -, -, -⟩ :=
    setupLinearization_ok lib c q0 u0 lambda0 lin hlin
  refine ⟨lin, hlin, fun t => ?_⟩
  simp only [CalcControl, hK, hE, hx, hx0, fullState]

/-- C6 at the example: `q0 = [0, 0]`, `u0 = [0]` give the desired state `[0, 0, 0, 0]` and the offset `[0]`. -/
theorem CalcControl_emits_setup_result_witness :
    ∃ c2, (SetupController exampleSolvers exampleController [0, 0] [0] [0]
        (Mat.Identity 2) (Mat.Identity 1)).result = .ok c2 ∧
      (CalcControl c2 7).desired_state = [0, 0, 0, 0] ∧ (CalcControl c2 7).E = [0] ∧
      (CalcControl c2 7).timestamp = 7 ∧ (CalcControl c2 8).K = (CalcControl c2 7).K := by
  obtain ⟨c2, h⟩ := example_setup_succeeds
  obtain ⟨lin, -, hc⟩ := CalcControl_emits_setup_result _ _ _ _ _ _ _ c2 h
  refine ⟨c2, h, ?_⟩
  rw [hc 7, hc 8]
  simp [exampleController, ConstrainedLQRController.create, exampleTree]

/-- C4: `SetupController` completes only if every component of the dynamics value at
`x0 = [q0; 0]`, `u0`, `lambda0` is at most `1e-6` in absolute value; when some
component exceeds `1e-6` in magnitude the run ends in a failure, so that no gain,
offset or desired state is stored. -/
theorem SetupController_demands_equilibrium (lib : Solvers α)
    (c : ConstrainedLQRController α) (q0 u0 lambda0 : List α) (Q R : Mat α) :
    (∀ c2, (SetupController lib c q0 u0 lambda0 Q R).result = .ok c2 →
      ∀ v ∈ autoDiffToValueMatrix
          (xdot0_autodiff c (q0 ++ List.replicate c.num_velocities_ 0) u0 lambda0),
        |v| ≤ 1 / 1000000) ∧
    ((∃ v ∈ autoDiffToValueMatrix
          (xdot0_autodiff c (q0 ++ List.replicate c.num_velocities_ 0) u0 lambda0),
        1 / 1000000 < |v|) →
      ∃ e, (SetupController lib c q0 u0 lambda0 Q R).result = .error e) := by
  have key : ∀ c2, (SetupController lib c q0 u0 lambda0 Q R).result = .ok c2 →
      ∀ v ∈ autoDiffToValueMatrix
          (xdot0_autodiff c (q0 ++ List.replicate c.num_velocities_ 0) u0 lambda0),
        |v| ≤ 1 / 1000000 := by
    intro c2 h v hv
    obtain ⟨lin, hlin, -⟩ := SetupController_ok lib c q0 u0 lambda0 Q R c2 h
    obtain ⟨-, J, P, xdot, A, B, -, -, hx, -⟩ :=
      setupLinearization_ok lib c q0 u0 lambda0 lin hlin
    simp only [checkEquilibrium] at hx
    split at hx
    · rename_i hz
      simp only [isZero, List.all_eq_true, decide_eq_true_eq, abs_one, one_mul,
        equilibriumTolerance] at hz
      exact hz v hv
    · cases hx
  refine ⟨key, ?_⟩
  rintro ⟨v, hv, hlt⟩
  rcases Outcome.result_cases (SetupController lib c q0 u0 lambda0 Q R) with he | ⟨c2, h⟩
  · exact he
  · exact absurd (key c2 h v hv) (not_le.mpr hlt)

/-- C4 at the example with `u0 = [1]`: the dynamics value has the component `1` and setup fails. -/
theorem SetupController_demands_equilibrium_witness :
    (∃ v ∈ autoDiffToValueMatrix
        (xdot0_autodiff exampleController ([0, 0] ++ List.replicate 2 0) [1] [0]),
      (1 : ℚ) / 1000000 < |v|) ∧
    ∃ e, (SetupController exampleSolvers exampleController [0, 0] [1] [0]
      (Mat.Identity 2) (Mat.Identity 1)).result = .error e := by
  have hbad : ∃ v ∈ autoDiffToValueMatrix
        (xdot0_autodiff exampleController ([0, 0] ++ List.replicate 2 0) [1] [0]),
      (1 : ℚ) / 1000000 < |v| := by
    refine ⟨1, ?_, by norm_num⟩
    simp [xdot0_autodiff, exampleController, ConstrainedLQRController.create, exampleTree,
      exampleToolkit, affineDynamics, exampleM, exampleN, AutoDiffXd.dot, AutoDiffXd.scale,
      AutoDiffXd.add, autoDiffToValueMatrix, initializeAutoDiff, AutoDiffXd.ofScalar,
      List.range, List.range.loop]
  exact ⟨hbad, (SetupController_demands_equilibrium exampleSolvers exampleController
    [0, 0] [1] [0] (Mat.Identity 2) (Mat.Identity 1)).2 hbad⟩

/-- C7, amended: a wrongly sized `q0`, `u0` or `lambda0` stops `SetupController` with
its own size failure before any collaborator is called, whatever the collaborators
and the other inputs are; the sizes of `Q` and `R` are checked only after the
Jacobian, the QR factorisation, the dynamics evaluation and the equilibrium check,
and the solver is called only with `Q` square of the reduced dimension `rows(P)` and
`R` square of the number of efforts. -/
theorem SetupController_size_checks (lib : Solvers α) (c : ConstrainedLQRController α)
    (q0 u0 lambda0 : List α) (Q R : Mat α) :
    (q0.length ≠ c.num_positions_ →
      SetupController lib c q0 u0 lambda0 Q R = ⟨[], .error .demand_q0_size⟩) ∧
    (q0.length = c.num_positions_ → u0.length ≠ c.num_efforts_ →
      SetupController lib c q0 u0 lambda0 Q R = ⟨[], .error .demand_u0_size⟩) ∧
    (q0.length = c.num_positions_ → u0.length = c.num_efforts_ →
      lambda0.length ≠ c.num_forces_ →
      SetupController lib c q0 u0 lambda0 Q R = ⟨[], .error .demand_lambda0_size⟩) ∧
    (Call.LinearQuadraticRegulator ∈ (SetupController lib c q0 u0 lambda0 Q R).calls →
      ∃ lin, (setupLinearization lib c q0 u0 lambda0).result = .ok lin ∧
        Q.rows = lin.P.rows ∧ Q.cols = lin.P.rows ∧
        R.rows = c.num_efforts_ ∧ R.cols = c.num_efforts_) ∧
    (∀ c2, (SetupController lib c q0 u0 lambda0 Q R).result = .ok c2 →
      Call.LinearQuadraticRegulator ∈ (SetupController lib c q0 u0 lambda0 Q R).calls) := by
  refine ⟨?_, ?_, ?_, ?_, ?_⟩
  · intro h
    simp [SetupController, setupLinearization, Outcome.bind, Outcome.pure, checkSizes, h]
  · intro h1 h2
    simp [SetupController, setupLinearization, Outcome.bind, Outcome.pure, checkSizes, h1, h2]
  · intro h1 h2 h3
    simp [SetupController, setupLinearization, Outcome.bind, Outcome.pure, checkSizes, h1, h2,
      h3]
  · intro h
    obtain ⟨lin, hlin, hv⟩ := (SetupController_calls_solver lib c q0 u0 lambda0 Q R).mp h
    obtain ⟨J, -, -, -, -, -, -, hA, hB⟩ := setupLinearization_shapes lib c q0 u0 lambda0 lin hlin
    obtain ⟨v1, v2, v3, v4⟩ := (validateQR_ok _ _ _ _).mp hv
    exact ⟨lin, hlin, by omega, by omega, by omega, by omega⟩
  · intro c2 h
    obtain ⟨lin, hlin, hv, -⟩ := SetupController_ok lib c q0 u0 lambda0 Q R c2 h
    exact (SetupController_calls_solver lib c q0 u0 lambda0 Q R).mpr ⟨lin, hlin, hv⟩

/-- C7 at the example: a `q0` of length 3, an empty `u0` and an empty `lambda0` each fail with their own size demand and no collaborator call. -/
theorem SetupController_size_checks_witness :
    SetupController exampleSolvers exampleController [0, 0, 0] [0] [0]
        (Mat.Identity 2) (Mat.Identity 1) = ⟨[], .error .demand_q0_size⟩ ∧
    SetupController exampleSolvers exampleController [0, 0] [] [0]
        (Mat.Identity 2) (Mat.Identity 1) = ⟨[], .error .demand_u0_size⟩ ∧
    SetupController exampleSolvers exampleController [0, 0] [0] []
        (Mat.Identity 2) (Mat.Identity 1) = ⟨[], .error .demand_lambda0_size⟩ :=
  ⟨(SetupController_size_checks exampleSolvers exampleController [0, 0, 0] [0] [0]
      (Mat.Identity 2) (Mat.Identity 1)).1 (by decide),
   (SetupController_size_checks exampleSolvers exampleController [0, 0] [] [0]
      (Mat.Identity 2) (Mat.Identity 1)).2.1 (by decide) (by decide),
   (SetupController_size_checks exampleSolvers exampleController [0, 0] [0] []
      (Mat.Identity 2) (Mat.Identity 1)).2.2.1 (by decide) (by decide) (by decide)⟩

/-- C7, counterexample: in the example (reduced dimension 2) with the wrongly sized
`Q = I₃` and the non-equilibrium control `u0 = [1]`, the Jacobian, the QR
factorisation and the dynamics are all evaluated and the failure reported is the
equilibrium demand, which is not a size failure. -/
theorem wrong_Q_reported_as_equilibrium_failure :
    (Mat.Identity 3 : Mat ℚ).rows ≠ 2 ∧
    SetupController exampleSolvers exampleController [0, 0] [1] [0]
        (Mat.Identity 3) (Mat.Identity 1) =
      ⟨[Call.doKinematics, Call.positionConstraintsJacobian, Call.householderQ,
        Call.CalcTimeDerivatives], .error .demand_equilibrium⟩ ∧
    SetupError.demand_equilibrium.isShapeMismatch = false :=
  ⟨by decide, example_nonequilibrium_run, rfl⟩

/-- C10: with `P` of `2 * num_positions` columns, `A` square of size
`num_positions + num_velocities` and `B` with that many rows, the products
`P * A * P.transpose()` and `P * B` are defined exactly when the velocity count equals
the position count; for a tree whose counts differ `SetupController` fails on every
input. -/
theorem projection_needs_equal_counts (tree : RigidBodyTree α) (info : ContactInfo)
    (toolkit : ContactToolkit α) :
    (∀ P A B : Mat α, P.cols = 2 * tree.get_num_positions →
      A.rows = tree.get_num_positions + tree.get_num_velocities →
      A.cols = tree.get_num_positions + tree.get_num_velocities →
      B.rows = tree.get_num_positions + tree.get_num_velocities →
      ((∃ A2 B2, projectAB P A B = .ok (A2, B2)) ↔
        tree.get_num_velocities = tree.get_num_positions)) ∧
    (tree.get_num_velocities ≠ tree.get_num_positions →
      ∀ (lib : Solvers α) (q0 u0 lambda0 : List α) (Q R : Mat α),
        ∃ e, (SetupController lib (ConstrainedLQRController.create tree info toolkit)
          q0 u0 lambda0 Q R).result = .error e) := by
  constructor
  · intro P A B hP hAr hAc hBr
    constructor
    · rintro ⟨A2, B2, h⟩
      obtain ⟨h1, -, -, -, -⟩ := projectAB_ok P A B A2 B2 h
      omega
    · intro hv
      refine ⟨(P.prod A).prod P.transpose, P.prod B, ?_⟩
      have h1 : P.cols = A.rows := by omega
      have h2 : (P.prod A).cols = P.transpose.rows := by
        show A.cols = P.cols
        omega
      have h3 : P.cols = B.rows := by omega
      simp only [projectAB, Mat.mul, if_pos h1, if_pos h2, if_pos h3]
  · intro hne lib q0 u0 lambda0 Q R
    rcases Outcome.result_cases (SetupController lib
      (ConstrainedLQRController.create tree info toolkit) q0 u0 lambda0 Q R) with he | ⟨c2, h⟩
    · exact he
    · exfalso
      obtain ⟨lin, hlin, -⟩ := SetupController_ok lib _ q0 u0 lambda0 Q R c2 h
      obtain ⟨J, -, -, -, -, -, hs, -, -⟩ := setupLinearization_shapes lib _ q0 u0 lambda0 lin hlin
      simp only [ConstrainedLQRController.create] at hs
      omega

/-- C10 at a tree with seven positions and six velocities: setup fails. -/
theorem projection_needs_equal_counts_witness :
    quaternionTree.get_num_velocities ≠ quaternionTree.get_num_positions ∧
    ∃ e, (SetupController exampleSolvers
      (ConstrainedLQRController.create quaternionTree ⟨0⟩ exampleToolkit)
      [0, 0, 0, 0, 0, 0, 0] [0] [] (Mat.Identity 14) (Mat.Identity 1)).result = .error e :=
  ⟨by decide, (projection_needs_equal_counts quaternionTree ⟨0⟩ exampleToolkit).2 (by decide)
    exampleSolvers [0, 0, 0, 0, 0, 0, 0] [0] [] (Mat.Identity 14) (Mat.Identity 1)⟩

/-- Lines 47-109 succeed on the example at the origin. -/
theorem example_linearization_succeeds :
    ∃ lin, (setupLinearization exampleSolvers exampleController [0, 0] [0] [0]).result
      = .ok lin := by
  obtain ⟨c2, h⟩ := example_setup_succeeds
  obtain ⟨lin, hlin, -⟩ := SetupController_ok _ _ _ _ _ _ _ c2 h
  exact ⟨lin, hlin⟩

/-- C5: once lines 47-109 have succeeded, with projector `P` and reduced input matrix
`B_ = P * B` of `num_efforts_` columns, the validation of lines 112-115 passes exactly
when `Q` is `rows(P) x rows(P)` and `R` is `num_efforts_ x num_efforts_`; otherwise
`SetupController` fails with the shape failure of the first violated demand and the
solver is not called. -/
theorem QR_shape_validation (lib : Solvers α) (c : ConstrainedLQRController α)
    (q0 u0 lambda0 : List α) (lin : Linearization α)
    (hlin : (setupLinearization lib c q0 u0 lambda0).result = .ok lin) (Q R : Mat α) :
    lin.A_.rows = lin.P.rows ∧ lin.B_ = lin.P.prod lin.B ∧ lin.B_.cols = c.num_efforts_ ∧
    (validateQR lin.A_ lin.B_ Q R = .ok () ↔
      (Q.rows = lin.P.rows ∧ Q.cols = lin.P.rows ∧
        R.rows = c.num_efforts_ ∧ R.cols = c.num_efforts_)) ∧
    (Call.LinearQuadraticRegulator ∈ (SetupController lib c q0 u0 lambda0 Q R).calls ↔
      (Q.rows = lin.P.rows ∧ Q.cols = lin.P.rows ∧
        R.rows = c.num_efforts_ ∧ R.cols = c.num_efforts_)) ∧
    (¬ (Q.rows = lin.P.rows ∧ Q.cols = lin.P.rows ∧
        R.rows = c.num_efforts_ ∧ R.cols = c.num_efforts_) →
      ∃ e, validateQR lin.A_ lin.B_ Q R = .error e ∧
        (SetupController lib c q0 u0 lambda0 Q R).result = .error e ∧
        e.isQRValidation = true ∧ e.isShapeMismatch = true) ∧
    (Q.rows ≠ Q.cols →
      (SetupController lib c q0 u0 lambda0 Q R).result = .error .demand_Q_square) ∧
    (Q.rows = Q.cols → R.rows ≠ R.cols →
      (SetupController lib c q0 u0 lambda0 Q R).result = .error .demand_R_square) ∧
    (Q.rows = Q.cols → R.rows = R.cols → Q.rows ≠ lin.P.rows →
      (SetupController lib c q0 u0 lambda0 Q R).result = .error .demand_A_Q) ∧
    (Q.rows = Q.cols → R.rows = R.cols → Q.rows = lin.P.rows → R.rows ≠ c.num_efforts_ →
      (SetupController lib c q0 u0 lambda0 Q R).result = .error .demand_B_R) := by
  obtain ⟨J, -, -, -, -, -, -, hA, hB⟩ := setupLinearization_shapes lib c q0 u0 lambda0 lin hlin
  obtain ⟨-, J2, P2, xdot, A, B, -, -, -, -, hp, -, hP2, hA2, hB2⟩ :=
    setupLinearization_ok lib c q0 u0 lambda0 lin hlin
  obtain ⟨-, -, -, -, hBprod⟩ := projectAB_ok P2 A B lin.A_ lin.B_ hp
  have hval : validateQR lin.A_ lin.B_ Q R = .ok () ↔
      (Q.rows = lin.P.rows ∧ Q.cols = lin.P.rows ∧
        R.rows = c.num_efforts_ ∧ R.cols = c.num_efforts_) := by
    rw [validateQR_ok]
    constructor
    · rintro ⟨v1, v2, v3, v4⟩
      exact ⟨by omega, by omega, by omega, by omega⟩
    · rintro ⟨v1, v2, v3, v4⟩
      exact ⟨by omega, by omega, by omega, by omega⟩
  have hres : ∀ e, validateQR lin.A_ lin.B_ Q R = .error e →
      (SetupController lib c q0 u0 lambda0 Q R).result = .error e := by
    intro e he
    unfold SetupController
    rw [Outcome.bind_result_error]
    refine Or.inr ⟨lin, hlin, ?_⟩
    rw [Outcome.bind_result_error]
    exact Or.inl he
  have hcalls : Call.LinearQuadraticRegulator ∈ (SetupController lib c q0 u0 lambda0 Q R).calls ↔
      (Q.rows = lin.P.rows ∧ Q.cols = lin.P.rows ∧
        R.rows = c.num_efforts_ ∧ R.cols = c.num_efforts_) := by
    rw [SetupController_calls_solver, ← hval]
    constructor
    · rintro ⟨lin2, h2, hv⟩
      rw [hlin] at h2
      cases h2
      exact hv
    · intro hv
      exact ⟨lin, hlin, hv⟩
  refine ⟨hA, ?_, hB, hval, hcalls, ?_, ?_, ?_, ?_, ?_⟩
  · rw [hBprod, hP2, hB2]
  · intro hbad
    cases hv : validateQR lin.A_ lin.B_ Q R with
    | ok u => exact absurd (hval.mp hv) hbad
    | error e =>
      have hq := validateQR_error _ _ _ _ e hv
      refine ⟨e, rfl, hres e hv, hq, ?_⟩
      cases e <;> simp [SetupError.isQRValidation] at hq <;> rfl
  · intro h1
    apply hres
    unfold validateQR
    rw [if_pos h1]
  · intro h1 h2
    apply hres
    unfold validateQR
    split_ifs <;> first | rfl | omega
  · intro h1 h2 h3
    apply hres
    unfold validateQR
    split_ifs <;> first | rfl | omega
  · intro h1 h2 h3 h4
    apply hres
    unfold validateQR
    split_ifs <;> first | rfl | omega

/-- C5 at the example (reduced dimension 2): `Q = I₃` fails with the demand of line 114 without a solver call, `Q = I₂` reaches the solver. -/
theorem QR_shape_validation_witness :
    ∃ lin, (setupLinearization exampleSolvers exampleController [0, 0] [0] [0]).result
        = .ok lin ∧ lin.P.rows = 2 ∧
      (SetupController exampleSolvers exampleController [0, 0] [0] [0]
        (Mat.Identity 3) (Mat.Identity 1)).result = .error .demand_A_Q ∧
      Call.LinearQuadraticRegulator ∉ (SetupController exampleSolvers exampleController
        [0, 0] [0] [0] (Mat.Identity 3) (Mat.Identity 1)).calls ∧
      Call.LinearQuadraticRegulator ∈ (SetupController exampleSolvers exampleController
        [0, 0] [0] [0] (Mat.Identity 2) (Mat.Identity 1)).calls := by
  obtain ⟨lin, hlin⟩ := example_linearization_succeeds
  obtain ⟨J, hJ, -, -, hrows, -⟩ := setupLinearization_shapes _ _ _ _ _ lin hlin
  have hJrows : J.rows = 1 := by
    have h := (computeJacobian_rows _ _ J hJ).1
    simpa [exampleController, ConstrainedLQRController.create, exampleTree, exampleJ,
      Mat.empty] using h
  have hP : lin.P.rows = 2 := by
    rw [hrows, hJrows]
    rfl
  have h3 := QR_shape_validation exampleSolvers exampleController [0, 0] [0] [0] lin hlin
    (Mat.Identity 3) (Mat.Identity 1)
  have h2 := QR_shape_validation exampleSolvers exampleController [0, 0] [0] [0] lin hlin
    (Mat.Identity 2) (Mat.Identity 1)
  refine ⟨lin, hlin, hP, ?_, ?_, ?_⟩
  · exact h3.2.2.2.2.2.2.2.2.1 rfl rfl (by rw [hP]; decide)
  · rw [h3.2.2.2.2.1, hP]
    decide
  · rw [h2.2.2.2.2.1, hP]
    decide

/-! ## The projector: orthonormal rows in the null space of `F` -/

/-- The four blocks of `F`. -/
theorem computeF_coeff (J : Mat α) (r k : Nat) :
    (r < J.rows → k < J.cols → (computeF J).coeff r k = J.coeff r k) ∧
    (r < J.rows → (computeF J).coeff r (J.cols + k) = 0) ∧
    (k < J.cols → (computeF J).coeff (J.rows + r) k = 0) ∧
    (computeF J).coeff (J.rows + r) (J.cols + k) = J.coeff r k := by
  refine ⟨?_, ?_, ?_, ?_⟩
  · intro hr hk
    simp only [computeF, hr, hk, and_self, if_true]
  · intro hr
    have h1 : ¬ (r < J.rows ∧ J.cols + k < J.cols) := by omega
    have h2 : ¬ (J.rows ≤ r ∧ J.cols ≤ J.cols + k) := by omega
    simp only [computeF, if_neg h1, if_neg h2]
  · intro hk
    have h1 : ¬ (J.rows + r < J.rows ∧ k < J.cols) := by omega
    have h2 : ¬ (J.rows ≤ J.rows + r ∧ J.cols ≤ k) := by omega
    simp only [computeF, if_neg h1, if_neg h2]
  · have h1 : ¬ (J.rows + r < J.rows ∧ J.cols + k < J.cols) := by omega
    have h2 : J.rows ≤ J.rows + r ∧ J.cols ≤ J.cols + k := by omega
    simp only [computeF, if_neg h1, if_pos h2, Nat.add_sub_cancel_left]

/-- With orthonormal columns `Qc` and `A = Qc * Rc`, the product `Qcᵀ * A` gives back
`Rc`. -/
theorem qr_transpose_mul (N M : Nat) (Ac Qc Rc : Nat → Nat → α)
    (hQ : ∀ i j, i < N → j < N → ∑ k in Finset.range N, Qc k i * Qc k j = if i = j then 1 else 0)
    (hA : ∀ i j, i < N → j < M → Ac i j = ∑ k in Finset.range N, Qc i k * Rc k j)
    (l j : Nat) (hl : l < N) (hj : j < M) :
    ∑ k in Finset.range N, Qc k l * Ac k j = Rc l j := by
  have h1 : ∀ k ∈ Finset.range N, Qc k l * Ac k j
      = ∑ t in Finset.range N, (Qc k l * Qc k t) * Rc t j := by
    intro k hk
    rw [hA k j (Finset.mem_range.mp hk) hj, Finset.mul_sum]
    exact Finset.sum_congr rfl fun t _ => (mul_assoc _ _ _).symm
  rw [Finset.sum_congr rfl h1, Finset.sum_comm]
  have h2 : ∀ t ∈ Finset.range N, ∑ k in Finset.range N, (Qc k l * Qc k t) * Rc t j
      = if l = t then Rc t j else 0 := by
    intro t ht
    rw [← Finset.sum_mul, hQ l t hl (Finset.mem_range.mp ht)]
    split_ifs <;> simp
  rw [Finset.sum_congr rfl h2, Finset.sum_ite_eq]
  simp [hl]

/-- The projector of lines 73-84 has orthonormal rows in the null space of `F`. -/
theorem nullSpaceProjector_orthonormal (lib : Solvers α) (J : Mat α)
    (hmn : J.rows ≤ J.cols)
    (hqr : IsQRFactor (computeF J).transpose (lib.householderQ (computeF J).transpose)) :
    ∃ P, (nullSpaceProjector lib J).result = .ok P ∧
      P.rows = 2 * J.cols - 2 * J.rows ∧ P.cols = 2 * J.cols ∧
      Mat.Same (P.prod P.transpose) (Mat.Identity P.rows) ∧
      Mat.Same (P.prod (computeF J).transpose) (Mat.Zeros P.rows (2 * J.rows)) ∧
      ∀ i r, i < P.rows → r < J.rows →
        ∑ k in Finset.range J.cols, P.coeff i k * J.coeff r k = 0 ∧
        ∑ k in Finset.range J.cols, P.coeff i (J.cols + k) * J.coeff r k = 0 := by
  obtain ⟨hQ, Rc, hR, hA⟩ := hqr
  have hP := nullSpaceProjector_result lib J
  rw [if_pos hmn] at hP
  have hPF : ∀ i j, i < 2 * J.cols - 2 * J.rows → j < 2 * J.rows →
      ∑ k in Finset.range (2 * J.cols),
        lib.householderQ (computeF J).transpose k (2 * J.rows + i) * (computeF J).coeff j k
        = 0 := by
    intro i j hi hj
    have h := qr_transpose_mul (2 * J.cols) (2 * J.rows) (computeF J).transpose.coeff
      (lib.householderQ (computeF J).transpose) Rc hQ hA (2 * J.rows + i) j (by omega) hj
    rw [hR (2 * J.rows + i) j (by omega)] at h
    exact h
  refine ⟨_, hP, rfl, rfl, ⟨rfl, rfl, ?_⟩, ⟨rfl, rfl, ?_⟩, ?_⟩
  · intro i j hi hj
    have hi2 : i < 2 * J.cols - 2 * J.rows := hi
    have hj2 : j < 2 * J.cols - 2 * J.rows := hj
    have h := hQ (2 * J.rows + i) (2 * J.rows + j) (by show _ < 2 * J.cols; omega)
      (by show _ < 2 * J.cols; omega)
    show ∑ k in Finset.range (2 * J.cols),
        lib.householderQ (computeF J).transpose k (2 * J.rows + i) *
          lib.householderQ (computeF J).transpose k (2 * J.rows + j)
        = if i = j then 1 else 0
    rw [show (computeF J).transpose.rows = 2 * J.cols from rfl] at h
    rw [h]
    by_cases hij : i = j
    · rw [if_pos hij, if_pos (by omega)]
    · rw [if_neg hij, if_neg (by omega)]
  · intro i j hi hj
    exact hPF i j hi hj
  · intro i r hi hr
    have hsplit : ∀ j, ∑ k in Finset.range (2 * J.cols),
        lib.householderQ (computeF J).transpose k (2 * J.rows + i) * (computeF J).coeff j k
        = ∑ k in Finset.range J.cols,
            lib.householderQ (computeF J).transpose k (2 * J.rows + i) * (computeF J).coeff j k
          + ∑ k in Finset.range J.cols,
            lib.householderQ (computeF J).transpose (J.cols + k) (2 * J.rows + i)
              * (computeF J).coeff j (J.cols + k) := by
      intro j
      rw [two_mul, Finset.sum_range_add]
    constructor
    · have h := hPF i r hi (by omega)
      rw [hsplit] at h
      have hz : ∑ k in Finset.range J.cols,
          lib.householderQ (computeF J).transpose (J.cols + k) (2 * J.rows + i)
            * (computeF J).coeff r (J.cols + k) = 0 := by
        apply Finset.sum_eq_zero
        intro k _
        have hc := (computeF_coeff J r k).2.1 hr
        rw [hc, mul_zero]
      rw [hz, add_zero] at h
      rw [← h]
      apply Finset.sum_congr rfl
      intro k hk
      have hc := (computeF_coeff J r k).1 hr (Finset.mem_range.mp hk)
      rw [hc]
    · have h := hPF i (J.rows + r) hi (by omega)
      rw [hsplit] at h
      have hz : ∑ k in Finset.range J.cols,
          lib.householderQ (computeF J).transpose k (2 * J.rows + i)
            * (computeF J).coeff (J.rows + r) k = 0 := by
        apply Finset.sum_eq_zero
        intro k hk
        have hc := (computeF_coeff J r k).2.2.1 (Finset.mem_range.mp hk)
        rw [hc, mul_zero]
      rw [hz, zero_add] at h
      rw [← h]
      apply Finset.sum_congr rfl
      intro k _
      have hc := (computeF_coeff J r k).2.2.2
      rw [hc]

/-- C1: for a Jacobian `J` with no more rows than columns and an orthogonal factor of a
QR factorisation of `F.transpose()`, the projector `P` computed by lines 73-84 has
`2 cols(J) - 2 rows(J)` orthonormal rows (`P Pᵀ = I`) lying in the null space of `F`
(`P Fᵀ = 0`): the position half and the velocity half of every row of `P` are
orthogonal to every row of `J`. -/
theorem projector_rows_orthonormal_in_null_space (lib : Solvers α) (J : Mat α)
    (hmn : J.rows ≤ J.cols)
    (hqr : IsQRFactor (computeF J).transpose (lib.householderQ (computeF J).transpose)) :
    ∃ P, (nullSpaceProjector lib J).result = .ok P ∧
      P.rows = 2 * J.cols - 2 * J.rows ∧ P.cols = 2 * J.cols ∧
      Mat.Same (P.prod P.transpose) (Mat.Identity P.rows) ∧
      Mat.Same (P.prod (computeF J).transpose) (Mat.Zeros P.rows (2 * J.rows)) ∧
      ∀ i r, i < P.rows → r < J.rows →
        ∑ k in Finset.range J.cols, P.coeff i k * J.coeff r k = 0 ∧
        ∑ k in Finset.range J.cols, P.coeff i (J.cols + k) * J.coeff r k = 0 :=
  nullSpaceProjector_orthonormal lib J hmn hqr

/-- The example Householder factor is an orthogonal factor of a QR factorisation of
`F.transpose()` for the Jacobian row `[3, 4]`, with `R = diag(-5, -5)` on top of zero
rows. -/
theorem example_isQRFactor_of (J : Mat ℚ) (hr : J.rows = 1) (hc : J.cols = 2)
    (h0 : J.coeff 0 0 = 3) (h1 : J.coeff 0 1 = 4) :
    IsQRFactor (computeF J).transpose
      (exampleSolvers.householderQ (computeF J).transpose) := by
  refine ⟨?_, fun i j => if i = j ∧ i < 2 then -5 else 0, ?_, ?_⟩
  · intro i j hi hj
    have hi4 : i < 4 := by
      have : i < 2 * J.cols := hi
      omega
    have hj4 : j < 4 := by
      have : j < 2 * J.cols := hj
      omega
    show ∑ k in Finset.range (2 * J.cols),
      (exampleQCoeff.getD k []).getD i 0 * (exampleQCoeff.getD k []).getD j 0
        = if i = j then 1 else 0
    simp only [hc, Finset.sum_range_succ, Finset.sum_range_zero, exampleQCoeff]
    interval_cases i <;> interval_cases j <;> norm_num
  · intro i j hij
    have h : ¬ (i = j ∧ i < 2) := by omega
    simp only [if_neg h]
  · intro i j hi hj
    have hi4 : i < 4 := by
      have : i < 2 * J.cols := hi
      omega
    have hj2 : j < 2 := by
      have : j < 2 * J.rows := hj
      omega
    show (computeF J).coeff j i = ∑ k in Finset.range (2 * J.cols),
      (exampleQCoeff.getD i []).getD k 0 * (if k = j ∧ k < 2 then -5 else 0)
    simp only [computeF, hr, hc, Finset.sum_range_succ, Finset.sum_range_zero, exampleQCoeff]
    interval_cases i <;> interval_cases j <;> norm_num [h0, h1]

/-- The QR contract holds for the example Jacobian. -/
theorem example_isQRFactor :
    IsQRFactor (computeF exampleJ).transpose
      (exampleSolvers.householderQ (computeF exampleJ).transpose) :=
  example_isQRFactor_of exampleJ rfl rfl rfl rfl

/-- The QR contract holds for the Jacobian assembled in the example run. -/
theorem example_isQRFactor_run (J : Mat ℚ)
    (h : (computeJacobian exampleController [0, 0]).result = .ok J) :
    IsQRFactor (computeF J).transpose
      (exampleSolvers.householderQ (computeF J).transpose) := by
  obtain ⟨hr, hco⟩ := computeJacobian_rows _ _ J h
  have hc := computeJacobian_ok _ _ J h
  apply example_isQRFactor_of J
  · simpa [exampleController, ConstrainedLQRController.create, exampleTree, exampleJ,
      Mat.empty] using hr
  · exact hc
  · exact hco 0 0 (by decide)
  · exact hco 0 1 (by decide)

/-- C1 at the example Jacobian row `[3, 4]`: both halves of each row of `P` are orthogonal to it. -/
theorem projector_rows_orthonormal_in_null_space_witness :
    exampleJ.rows ≤ exampleJ.cols ∧
    ∃ P, (nullSpaceProjector exampleSolvers exampleJ).result = .ok P ∧
      P.rows = 2 ∧ P.cols = 4 ∧
      Mat.Same (P.prod P.transpose) (Mat.Identity P.rows) ∧
      ∀ i, i < P.rows → P.coeff i 0 * 3 + P.coeff i 1 * 4 = 0 ∧
        P.coeff i 2 * 3 + P.coeff i 3 * 4 = 0 := by
  have hle : exampleJ.rows ≤ exampleJ.cols := by decide
  obtain ⟨P, hP, hr, hc, hI, -, hJ⟩ :=
    projector_rows_orthonormal_in_null_space exampleSolvers exampleJ hle example_isQRFactor
  refine ⟨hle, P, hP, hr, hc, hI, fun i hi => ?_⟩
  have h := hJ i 0 hi (by decide)
  simpa [Finset.sum_range_succ, exampleJ] using h

/-! ## The re-expanded gain -/

/-- The coefficient formula of the product is associative. -/
theorem Mat.prod_assoc (A B C : Mat α) : (A.prod B).prod C = A.prod (B.prod C) := by
  simp only [Mat.prod, Mat.mk.injEq, true_and]
  funext i j
  simp only [Finset.sum_mul, Finset.mul_sum]
  rw [Finset.sum_comm]
  exact Finset.sum_congr rfl fun t _ => Finset.sum_congr rfl fun k _ => mul_assoc _ _ _

/-- A product only reads the rows of its right factor below the column count of its
left factor. -/
theorem Mat.prod_congr_right (A B C : Mat α) (hc : B.cols = C.cols)
    (h : ∀ k j, k < A.cols → B.coeff k j = C.coeff k j) : A.prod B = A.prod C := by
  simp only [Mat.prod, Mat.mk.injEq, true_and]
  refine ⟨hc, ?_⟩
  funext i j
  exact Finset.sum_congr rfl fun k hk => by rw [h k j (Finset.mem_range.mp hk)]

/-- With `P Pᵀ = I` on the rows of `P`, the rows of `(P Pᵀ) Z` below `rows(P)` are
those of `Z`. -/
theorem Mat.prod_transpose_self_prod (P Z : Mat α)
    (hI : Mat.Same (P.prod P.transpose) (Mat.Identity P.rows)) (k j : Nat) (hk : k < P.rows) :
    ((P.prod P.transpose).prod Z).coeff k j = Z.coeff k j := by
  obtain ⟨-, -, hI⟩ := hI
  show ∑ d in Finset.range P.rows, (P.prod P.transpose).coeff k d * Z.coeff d j = Z.coeff k j
  have h1 : ∀ d ∈ Finset.range P.rows, (P.prod P.transpose).coeff k d * Z.coeff d j
      = if k = d then Z.coeff d j else 0 := by
    intro d hd
    rw [hI k d hk (Finset.mem_range.mp hd)]
    simp only [Mat.Identity]
    split_ifs <;> simp
  rw [Finset.sum_congr rfl h1, Finset.sum_ite_eq]
  simp [hk]

/-- C2: after a successful `SetupController`, with an orthogonal QR factor from the
Householder routine, the stored gain is `K = K_reduced * P` and satisfies
`K δx = K (Pᵀ P δx)` for every `δx` and `K (Fᵀ y) = 0` for every `y`: the gain only
sees the part of a deviation that lies in the span of the rows of `P`, and
annihilates the row space of `F`. -/
theorem gain_acts_through_projected_part (lib : Solvers α) (c : ConstrainedLQRController α)
    (q0 u0 lambda0 : List α) (Q R : Mat α) (c2 : ConstrainedLQRController α)
    (h : (SetupController lib c q0 u0 lambda0 Q R).result = .ok c2)
    (hqr : ∀ J, (computeJacobian c q0).result = .ok J →
      IsQRFactor (computeF J).transpose (lib.householderQ (computeF J).transpose)) :
    ∃ J lin, (computeJacobian c q0).result = .ok J ∧
      (setupLinearization lib c q0 u0 lambda0).result = .ok lin ∧
      (nullSpaceProjector lib J).result = .ok lin.P ∧
      c2.K_ = (lib.LinearQuadraticRegulator lin.A_ lin.B_ Q R).K.prod lin.P ∧
      (∀ δx : Mat α, c2.K_.prod δx = c2.K_.prod ((lin.P.transpose.prod lin.P).prod δx)) ∧
      (∀ y : Mat α, c2.K_.prod ((computeF J).transpose.prod y)
        = Mat.Zeros c2.K_.rows y.cols) := by
  obtain ⟨lin, hlin, -, hKc, hK, -, -⟩ := SetupController_ok lib c q0 u0 lambda0 Q R c2 h
  obtain ⟨J, hJ, hle, hP, -⟩ := setupLinearization_shapes lib c q0 u0 lambda0 lin hlin
  obtain ⟨P, hP2, hr, -, hI, hZ, -⟩ := nullSpaceProjector_orthonormal lib J hle (hqr J hJ)
  rw [hP] at hP2
  cases hP2
  refine ⟨J, lin, hJ, hlin, hP, hK, ?_, ?_⟩
  · intro δx
    rw [hK, Mat.prod_assoc lin.P.transpose, Mat.prod_assoc _ lin.P, Mat.prod_assoc _ lin.P,
      ← Mat.prod_assoc lin.P lin.P.transpose]
    apply Mat.prod_congr_right
    · rfl
    · intro k j hk
      rw [hKc] at hk
      exact (Mat.prod_transpose_self_prod lin.P (lin.P.prod δx) hI k j hk).symm
  · intro y
    rw [hK, Mat.prod_assoc _ lin.P, ← Mat.prod_assoc lin.P]
    simp only [Mat.prod, Mat.Zeros, Mat.mk.injEq, true_and]
    funext i j
    apply Finset.sum_eq_zero
    intro b hb
    have hb2 : b < lin.P.rows := by
      rw [← hKc]
      exact Finset.mem_range.mp hb
    have hz : ∑ k in Finset.range (computeF J).transpose.cols,
        (∑ a in Finset.range lin.P.cols, lin.P.coeff b a * (computeF J).transpose.coeff a k)
          * y.coeff k j = 0 := by
      apply Finset.sum_eq_zero
      intro k hk
      have h0 := hZ.2.2 b k hb2 (Finset.mem_range.mp hk)
      simp only [Mat.prod, Mat.Zeros] at h0
      rw [h0, zero_mul]
    rw [hz, mul_zero]

/-- C2 at the example, for the deviation `(1, 2, 3, 4)` and the row-space direction `Fᵀ (1, 1)`. -/
theorem gain_acts_through_projected_part_witness :
    ∃ c2 J lin, (SetupController exampleSolvers exampleController [0, 0] [0] [0]
        (Mat.Identity 2) (Mat.Identity 1)).result = .ok c2 ∧
      (computeJacobian exampleController [0, 0]).result = .ok J ∧
      (setupLinearization exampleSolvers exampleController [0, 0] [0] [0]).result = .ok lin ∧
      c2.K_.prod (Mat.ofRows 4 1 [[1], [2], [3], [4]]) =
        c2.K_.prod ((lin.P.transpose.prod lin.P).prod (Mat.ofRows 4 1 [[1], [2], [3], [4]])) ∧
      c2.K_.prod ((computeF J).transpose.prod (Mat.ofRows 2 1 [[1], [1]])) =
        Mat.Zeros c2.K_.rows 1 := by
  obtain ⟨c2, h⟩ := example_setup_succeeds
  obtain ⟨J, lin, hJ, hlin, -, -, h1, h2⟩ :=
    gain_acts_through_projected_part exampleSolvers exampleController [0, 0] [0] [0]
      (Mat.Identity 2) (Mat.Identity 1) c2 h example_isQRFactor_run
  exact ⟨c2, J, lin, h, hJ, hlin, h1 _, h2 _⟩

/-! ## Completeness of the projector for a Jacobian of full row rank -/

/-- A square matrix with orthonormal columns has orthonormal rows. -/
theorem orthonormal_rows_of_cols (N : Nat) (Qc : Nat → Nat → α)
    (hQ : ∀ i j, i < N → j < N → ∑ k in Finset.range N, Qc k i * Qc k j = if i = j then 1 else 0)
    (a b : Nat) (ha : a < N) (hb : b < N) :
    ∑ l in Finset.range N, Qc a l * Qc b l = if a = b then 1 else 0 := by
  let QM : Matrix (Fin N) (Fin N) α := Matrix.of fun i j => Qc i j
  have h1 : QM.transpose * QM = 1 := by
    ext i j
    rw [Matrix.mul_apply, Matrix.one_apply]
    have h := hQ i j i.2 j.2
    rw [Finset.sum_range] at h
    simp only [QM, Matrix.transpose_apply, Matrix.of_apply]
    rw [h]
    simp only [Fin.ext_iff]
  have h2 : QM * QM.transpose = 1 := Matrix.mul_eq_one_comm.mp h1
  have h3 := congrFun (congrFun h2 ⟨a, ha⟩) ⟨b, hb⟩
  rw [Matrix.mul_apply, Matrix.one_apply] at h3
  rw [Finset.sum_range]
  simp only [QM, Matrix.transpose_apply, Matrix.of_apply, Fin.ext_iff] at h3
  exact h3

/-- For a square block, a trivial right kernel gives a trivial left kernel. -/
theorem left_kernel_trivial_of_right (M : Nat) (Rc : Nat → Nat → α)
    (hinj : ∀ y : Nat → α,
      (∀ l, l < M → ∑ j in Finset.range M, Rc l j * y j = 0) → ∀ j, j < M → y j = 0)
    (w : Nat → α) (hw : ∀ j, j < M → ∑ l in Finset.range M, w l * Rc l j = 0) :
    ∀ l, l < M → w l = 0 := by
  let RM : Matrix (Fin M) (Fin M) α := Matrix.of fun i j => Rc i j
  have hmul : Function.Injective RM.mulVec := by
    intro y1 y2 hy
    have hsub : RM.mulVec (y1 - y2) = 0 := by
      rw [Matrix.mulVec_sub, hy, sub_self]
    have hz := hinj (fun k => if hk : k < M then (y1 - y2) ⟨k, hk⟩ else 0) (by
      intro l hl
      have h := congrFun hsub ⟨l, hl⟩
      simp only [Matrix.mulVec, Matrix.dotProduct, RM, Matrix.of_apply, Pi.zero_apply] at h
      rw [Finset.sum_range]
      simpa using h)
    funext k
    have h := hz k k.2
    simp only [k.2, dif_pos, Fin.eta, Pi.sub_apply] at h
    exact sub_eq_zero.mp h
  have hunit : IsUnit RM := Matrix.mulVec_injective_iff_isUnit.mp hmul
  have hvec : Function.Injective RM.vecMul := Matrix.vecMul_injective_iff_isUnit.mpr hunit
  have h0 : RM.vecMul (fun l : Fin M => w l) = RM.vecMul 0 := by
    funext j
    have h := hw j j.2
    rw [Finset.sum_range] at h
    simp only [Matrix.vecMul, Matrix.dotProduct, RM, Matrix.of_apply, Pi.zero_apply,
      zero_mul, Finset.sum_const_zero]
    exact h
  intro l hl
  exact congrFun (hvec h0) ⟨l, hl⟩

/-- With `A = Qc * Rc` (`N x M`, `M ≤ N`, `Qc` orthogonal, `Rc` upper-trapezoidal) and
independent columns of `A`, the trailing `N - M` columns of `Qc` span the whole
orthogonal complement of the columns of `A`: projecting onto them fixes every `x`
orthogonal to the columns of `A`. -/
theorem complement_projection_fixes_kernel (N M : Nat) (hMN : M ≤ N) (Ac Qc Rc : Nat → Nat → α)
    (hQ : ∀ i j, i < N → j < N → ∑ k in Finset.range N, Qc k i * Qc k j = if i = j then 1 else 0)
    (hA : ∀ i j, i < N → j < M → Ac i j = ∑ k in Finset.range N, Qc i k * Rc k j)
    (hR : ∀ i j, j < i → Rc i j = 0)
    (hindep : ∀ y : Nat → α,
      (∀ i, i < N → ∑ j in Finset.range M, Ac i j * y j = 0) → ∀ j, j < M → y j = 0)
    (x : Nat → α) (hx : ∀ j, j < M → ∑ i in Finset.range N, Ac i j * x i = 0)
    (a : Nat) (ha : a < N) :
    ∑ b in Finset.range N, (∑ i in Finset.range (N - M), Qc a (M + i) * Qc b (M + i)) * x b
      = x a := by
  have hsplit : ∀ f : Nat → α, ∑ k in Finset.range N, f k
      = ∑ k in Finset.range M, f k + ∑ t in Finset.range (N - M), f (M + t) := by
    intro f
    have h := Finset.sum_range_add f M (N - M)
    rw [Nat.add_sub_cancel' hMN] at h
    exact h
  have hA2 : ∀ i j, i < N → j < M → Ac i j = ∑ k in Finset.range M, Qc i k * Rc k j := by
    intro i j hi hj
    rw [hA i j hi hj, hsplit]
    have hz : ∑ t in Finset.range (N - M), Qc i (M + t) * Rc (M + t) j = 0 := by
      apply Finset.sum_eq_zero
      intro t _
      rw [hR (M + t) j (by omega), mul_zero]
    rw [hz, add_zero]
  have hright : ∀ y : Nat → α,
      (∀ l, l < M → ∑ j in Finset.range M, Rc l j * y j = 0) → ∀ j, j < M → y j = 0 := by
    intro y hy
    apply hindep y
    intro i hi
    have h1 : ∀ j ∈ Finset.range M, Ac i j * y j
        = ∑ k in Finset.range M, Qc i k * (Rc k j * y j) := by
      intro j hj
      rw [hA2 i j hi (Finset.mem_range.mp hj), Finset.sum_mul]
      exact Finset.sum_congr rfl fun k _ => mul_assoc _ _ _
    rw [Finset.sum_congr rfl h1, Finset.sum_comm]
    apply Finset.sum_eq_zero
    intro k hk
    rw [← Finset.mul_sum, hy k (Finset.mem_range.mp hk), mul_zero]
  have hw : ∀ l, l < M → ∑ i in Finset.range N, Qc i l * x i = 0 := by
    apply left_kernel_trivial_of_right M Rc hright
    intro j hj
    have h1 : ∀ l ∈ Finset.range M, (∑ i in Finset.range N, Qc i l * x i) * Rc l j
        = ∑ i in Finset.range N, x i * (Qc i l * Rc l j) := by
      intro l _
      rw [Finset.sum_mul]
      exact Finset.sum_congr rfl fun i _ => by ring
    rw [Finset.sum_congr rfl h1, Finset.sum_comm]
    have h2 : ∀ i ∈ Finset.range N, ∑ l in Finset.range M, x i * (Qc i l * Rc l j)
        = Ac i j * x i := by
      intro i hi
      rw [← Finset.mul_sum, ← hA2 i j (Finset.mem_range.mp hi) hj, mul_comm]
    rw [Finset.sum_congr rfl h2]
    exact hx j hj
  have hrows := orthonormal_rows_of_cols N Qc hQ
  have h3 : ∀ b ∈ Finset.range N,
      (∑ i in Finset.range (N - M), Qc a (M + i) * Qc b (M + i)) * x b
        = ∑ i in Finset.range (N - M), Qc a (M + i) * (Qc b (M + i) * x b) := by
    intro b _
    rw [Finset.sum_mul]
    exact Finset.sum_congr rfl fun i _ => mul_assoc _ _ _
  rw [Finset.sum_congr rfl h3, Finset.sum_comm]
  have h4 : ∑ l in Finset.range N, Qc a l * ∑ b in Finset.range N, Qc b l * x b = x a := by
    have h5 : ∀ l ∈ Finset.range N, Qc a l * ∑ b in Finset.range N, Qc b l * x b
        = ∑ b in Finset.range N, (Qc a l * Qc b l) * x b := by
      intro l _
      rw [Finset.mul_sum]
      exact Finset.sum_congr rfl fun b _ => (mul_assoc _ _ _).symm
    rw [Finset.sum_congr rfl h5, Finset.sum_comm]
    have h6 : ∀ b ∈ Finset.range N, ∑ l in Finset.range N, (Qc a l * Qc b l) * x b
        = if a = b then x b else 0 := by
      intro b hb
      rw [← Finset.sum_mul, hrows a b ha (Finset.mem_range.mp hb)]
      split_ifs <;> simp
    rw [Finset.sum_congr rfl h6, Finset.sum_ite_eq]
    simp [ha]
  rw [hsplit] at h4
  have h7 : ∑ k in Finset.range M, Qc a k * ∑ b in Finset.range N, Qc b k * x b = 0 := by
    apply Finset.sum_eq_zero
    intro k hk
    rw [hw k (Finset.mem_range.mp hk), mul_zero]
  rw [h7, zero_add] at h4
  rw [← h4]
  exact Finset.sum_congr rfl fun i _ => (Finset.mul_sum _ _ _).symm

/-- A matrix of full row rank has no more rows than columns, and its rows are
linearly independent. -/
theorem full_row_rank_independent (J : Mat α) (hrank : J.toMatrix.rank = J.rows) :
    J.rows ≤ J.cols ∧
    ∀ y : Nat → α,
      (∀ k, k < J.cols → ∑ r in Finset.range J.rows, J.coeff r k * y r = 0) →
      ∀ r, r < J.rows → y r = 0 := by
  constructor
  · have h := Matrix.rank_le_width J.toMatrix
    omega
  · have hli : LinearIndependent α (fun i => J.toMatrix i) := by
      rw [linearIndependent_iff_card_eq_finrank_span, Fintype.card_fin, Set.finrank]
      have h := Matrix.rank_eq_finrank_span_row J.toMatrix
      rw [← h, hrank]
    rw [Fintype.linearIndependent_iff] at hli
    intro y hy r hr
    refine hli (fun i => y i) ?_ ⟨r, hr⟩
    funext k
    have h := hy k k.2
    rw [Finset.sum_range] at h
    simp only [Finset.sum_apply, Pi.smul_apply, smul_eq_mul, Pi.zero_apply, Mat.toMatrix]
    rw [← h]
    exact Finset.sum_congr rfl fun i _ => mul_comm _ _

/-- Independent rows of `J` give independent rows of `F`. -/
theorem computeF_rows_independent (J : Mat α)
    (hind : ∀ y : Nat → α,
      (∀ k, k < J.cols → ∑ r in Finset.range J.rows, J.coeff r k * y r = 0) →
      ∀ r, r < J.rows → y r = 0)
    (y : Nat → α)
    (hy : ∀ i, i < 2 * J.cols →
      ∑ j in Finset.range (2 * J.rows), (computeF J).coeff j i * y j = 0) :
    ∀ j, j < 2 * J.rows → y j = 0 := by
  have hsplit : ∀ i, ∑ j in Finset.range (2 * J.rows), (computeF J).coeff j i * y j
      = ∑ r in Finset.range J.rows, (computeF J).coeff r i * y r
        + ∑ r in Finset.range J.rows, (computeF J).coeff (J.rows + r) i * y (J.rows + r) := by
    intro i
    rw [two_mul, Finset.sum_range_add]
  have h1 : ∀ r, r < J.rows → y r = 0 := by
    apply hind y
    intro k hk
    have h := hy k (by omega)
    rw [hsplit] at h
    have hz : ∑ r in Finset.range J.rows,
        (computeF J).coeff (J.rows + r) k * y (J.rows + r) = 0 := by
      apply Finset.sum_eq_zero
      intro r _
      have hc := (computeF_coeff J r k).2.2.1 hk
      rw [hc, zero_mul]
    rw [hz, add_zero] at h
    rw [← h]
    apply Finset.sum_congr rfl
    intro r hr
    have hc := (computeF_coeff J r k).1 (Finset.mem_range.mp hr) hk
    rw [hc]
  have h2 : ∀ r, r < J.rows → y (J.rows + r) = 0 := by
    apply hind (fun r => y (J.rows + r))
    intro k hk
    have h := hy (J.cols + k) (by omega)
    rw [hsplit] at h
    have hz : ∑ r in Finset.range J.rows, (computeF J).coeff r (J.cols + k) * y r = 0 := by
      apply Finset.sum_eq_zero
      intro r hr
      have hc := (computeF_coeff J r k).2.1 (Finset.mem_range.mp hr)
      rw [hc, zero_mul]
    rw [hz, zero_add] at h
    rw [← h]
    apply Finset.sum_congr rfl
    intro r _
    have hc := (computeF_coeff J r k).2.2.2
    rw [hc]
  intro j hj
  by_cases hjm : j < J.rows
  · exact h1 j hjm
  · have h := h2 (j - J.rows) (by omega)
    rw [Nat.add_sub_cancel' (by omega)] at h
    exact h

/-- C9: when `J` has full row rank, and with an orthogonal factor of a QR
factorisation of `F.transpose()`, the rows of the projector `P` are an orthonormal
basis of the null space of `F`: `P` has exactly `2 (cols(J) - rows(J))` rows and
`2 cols(J)` columns, `P Pᵀ = I`, `P Fᵀ = 0`, and every direction `δx = [δq; δv]` with
`J δq = 0` and `J δv = 0` satisfies `Pᵀ P δx = δx`. -/
theorem projector_spans_null_space (lib : Solvers α) (J : Mat α)
    (hrank : J.toMatrix.rank = J.rows)
    (hqr : IsQRFactor (computeF J).transpose (lib.householderQ (computeF J).transpose)) :
    ∃ P, (nullSpaceProjector lib J).result = .ok P ∧
      P.rows = 2 * (J.cols - J.rows) ∧ P.cols = 2 * J.cols ∧
      Mat.Same (P.prod P.transpose) (Mat.Identity P.rows) ∧
      Mat.Same (P.prod (computeF J).transpose) (Mat.Zeros P.rows (2 * J.rows)) ∧
      ∀ δx : Mat α,
        (∀ r j, r < J.rows → j < δx.cols →
          ∑ k in Finset.range J.cols, J.coeff r k * δx.coeff k j = 0) →
        (∀ r j, r < J.rows → j < δx.cols →
          ∑ k in Finset.range J.cols, J.coeff r k * δx.coeff (J.cols + k) j = 0) →
        ∀ a j, a < 2 * J.cols → j < δx.cols →
          ((P.transpose.prod P).prod δx).coeff a j = δx.coeff a j := by
  obtain ⟨hmn, hind⟩ := full_row_rank_independent J hrank
  obtain ⟨P, hP0, -, -, hI, hZ, -⟩ := nullSpaceProjector_orthonormal lib J hmn hqr
  obtain ⟨hQ, Rc, hR, hA⟩ := hqr
  have hP := nullSpaceProjector_result lib J
  rw [if_pos hmn] at hP
  rw [hP] at hP0
  cases hP0
  refine ⟨_, hP, by show 2 * J.cols - 2 * J.rows = _; omega, rfl, hI, hZ, ?_⟩
  intro δx hq hv a j ha hj
  have hx : ∀ t, t < 2 * J.rows →
      ∑ i in Finset.range (2 * J.cols), (computeF J).transpose.coeff i t * δx.coeff i j = 0 := by
    intro t ht
    show ∑ i in Finset.range (2 * J.cols), (computeF J).coeff t i * δx.coeff i j = 0
    rw [two_mul, Finset.sum_range_add]
    by_cases htm : t < J.rows
    · have hz : ∑ k in Finset.range J.cols,
          (computeF J).coeff t (J.cols + k) * δx.coeff (J.cols + k) j = 0 := by
        apply Finset.sum_eq_zero
        intro k _
        have hc := (computeF_coeff J t k).2.1 htm
        rw [hc, zero_mul]
      rw [hz, add_zero, ← hq t j htm hj]
      apply Finset.sum_congr rfl
      intro k hk
      have hc := (computeF_coeff J t k).1 htm (Finset.mem_range.mp hk)
      rw [hc]
    · have ht2 : t = J.rows + (t - J.rows) := by omega
      have hz : ∑ k in Finset.range J.cols, (computeF J).coeff t k * δx.coeff k j = 0 := by
        apply Finset.sum_eq_zero
        intro k hk
        have hc := (computeF_coeff J (t - J.rows) k).2.2.1 (Finset.mem_range.mp hk)
        rw [← ht2] at hc
        rw [hc, zero_mul]
      rw [hz, zero_add, ← hv (t - J.rows) j (by omega) hj]
      apply Finset.sum_congr rfl
      intro k _
      have hc := (computeF_coeff J (t - J.rows) k).2.2.2
      rw [← ht2] at hc
      rw [hc]
  have hindF := computeF_rows_independent J hind
  have key := complement_projection_fixes_kernel (2 * J.cols) (2 * J.rows) (by omega)
    (computeF J).transpose.coeff (lib.householderQ (computeF J).transpose) Rc hQ hA hR
    hindF (fun i => δx.coeff i j) hx a ha
  exact key

/-- The example Jacobian has rank one. -/
theorem example_full_row_rank : exampleJ.toMatrix.rank = exampleJ.rows := by
  have hli : LinearIndependent ℚ (fun i => exampleJ.toMatrix i) := by
    rw [Fintype.linearIndependent_iff]
    intro g hg i
    have h := congrFun hg ⟨0, by decide⟩
    have hi : i = ⟨0, by decide⟩ := by
      apply Fin.ext
      have := i.2
      show i.1 = 0
      have h1 : exampleJ.rows = 1 := rfl
      omega
    have hu : (Finset.univ : Finset (Fin exampleJ.rows)) = {⟨0, by decide⟩} := by
      ext k
      simp only [Finset.mem_univ, Finset.mem_singleton, true_iff]
      apply Fin.ext
      have := k.2
      show k.1 = 0
      have h1 : exampleJ.rows = 1 := rfl
      omega
    rw [hu, Finset.sum_singleton] at h
    simp only [Pi.smul_apply, smul_eq_mul, Pi.zero_apply, Mat.toMatrix, exampleJ] at h
    rw [hi]
    norm_num at h
    exact h
  rw [hli.rank_matrix, Fintype.card_fin]

/-- C9 at the example: the null-space direction `(4, -3, 8, -6)` is fixed by `Pᵀ P`. -/
theorem projector_spans_null_space_witness :
    exampleJ.toMatrix.rank = exampleJ.rows ∧
    ∃ P, (nullSpaceProjector exampleSolvers exampleJ).result = .ok P ∧
      P.rows = 2 ∧ P.cols = 4 ∧
      ∀ a, a < 4 →
        ((P.transpose.prod P).prod (Mat.ofRows 4 1 [[4], [-3], [8], [-6]])).coeff a 0
          = (Mat.ofRows 4 1 [[4], [-3], [8], [-6]]).coeff a 0 := by
  obtain ⟨P, hP, hr, hc, -, -, hfix⟩ :=
    projector_spans_null_space exampleSolvers exampleJ example_full_row_rank example_isQRFactor
  refine ⟨example_full_row_rank, P, hP, hr, hc, fun a ha => ?_⟩
  apply hfix (Mat.ofRows 4 1 [[4], [-3], [8], [-6]])
  · intro r j hr hj
    have hr0 : r = 0 := by
      have : r < 1 := hr
      omega
    have hj0 : j = 0 := by
      have : j < 1 := hj
      omega
    subst hr0 hj0
    norm_num [Finset.sum_range_succ, exampleJ, Mat.ofRows]
  · intro r j hr hj
    have hr0 : r = 0 := by
      have : r < 1 := hr
      omega
    have hj0 : j = 0 := by
      have : j < 1 := hj
      omega
    subst hr0 hj0
    norm_num [Finset.sum_range_succ, exampleJ, Mat.ofRows]
  · exact ha
  · exact Nat.zero_lt_one

/-! ## Which failure is reported -/

omit [LinearOrderedField α] in
/-- A failed block request reports the block failure. -/
theorem Mat.block_error (A : Mat α) (i j p q : Int) (e : SetupError)
    (h : A.block i j p q = .error e) : e = .eigen_block := by
  unfold Mat.block at h
  split at h
  · cases h
  · cases h
    rfl

/-- A failed extraction of `A` and `B` is a shape failure. -/
theorem extractAB_error (c : ConstrainedLQRController α) (xdot : List (AutoDiffXd α))
    (e : SetupError) (h : extractAB c xdot = .error e) : e.isShapeMismatch = true := by
  unfold extractAB at h
  split at h
  · rename_i e2 hg
    cases h
    unfold autoDiffToGradientMatrix at hg
    split at hg
    · cases hg
    · cases hg
      rfl
  · split at h
    · rename_i e2 hb
      cases h
      rw [Mat.block_error _ _ _ _ _ _ hb]
      rfl
    · split at h
      · rename_i e2 hb
        cases h
        rw [Mat.block_error _ _ _ _ _ _ hb]
        rfl
      · cases h

/-- A failed product reports the product failure. -/
theorem Mat.mul_error (A B : Mat α) (e : SetupError) (h : A.mul B = .error e) :
    e = .eigen_product := by
  unfold Mat.mul at h
  split at h
  · cases h
  · cases h
    rfl

/-- A failed reduction is a shape failure. -/
theorem projectAB_error (P A B : Mat α) (e : SetupError) (h : projectAB P A B = .error e) :
    e.isShapeMismatch = true := by
  unfold projectAB at h
  split at h
  · rename_i e2 hm
    cases h
    rw [Mat.mul_error _ _ _ hm]
    rfl
  · split at h
    · rename_i e2 hm
      cases h
      rw [Mat.mul_error _ _ _ hm]
      rfl
    · split at h
      · rename_i e2 hm
        cases h
        rw [Mat.mul_error _ _ _ hm]
        rfl
      · cases h

/-- The only failure of `SetupController` that is not a shape failure is the
equilibrium demand, and it is reported only when the dynamics value at the reference
point is not within the tolerance. -/
theorem SetupController_error_is_shape (lib : Solvers α) (c : ConstrainedLQRController α)
    (q0 u0 lambda0 : List α) (Q R : Mat α) (e : SetupError)
    (h : (SetupController lib c q0 u0 lambda0 Q R).result = .error e)
    (heq : isZero (autoDiffToValueMatrix (xdot0_autodiff c (fullState c q0) u0 lambda0))
      equilibriumTolerance = true) :
    e.isShapeMismatch = true := by
  unfold SetupController at h
  rw [Outcome.bind_result_error] at h
  rcases h with h | ⟨lin, -, h⟩
  · unfold setupLinearization at h
    rw [Outcome.bind_result_error] at h
    rcases h with h | ⟨u, -, h⟩
    · simp only [Outcome.pure, checkSizes] at h
      split_ifs at h <;> cases h <;> rfl
    rw [Outcome.bind_result_error] at h
    rcases h with h | ⟨J, -, h⟩
    · have h2 : Mat.commaInitializer c.num_positions_ (c.tree_.positionConstraintsJacobian q0)
          (if c.contact_info_.num_contacts > 0 then
            autoDiffToValueMat (c.contact_toolkit_.CalcContactJacobian
              (initializeAutoDiff (fullState c q0)))
           else Mat.empty) = .error e := h
      unfold Mat.commaInitializer at h2
      generalize (if c.contact_info_.num_contacts > 0 then
            autoDiffToValueMat (c.contact_toolkit_.CalcContactJacobian
              (initializeAutoDiff (fullState c q0)))
           else Mat.empty) = Jc at h2
      split_ifs at h2
      cases h2
      rfl
    rw [Outcome.bind_result_error] at h
    rcases h with h | ⟨P, -, h⟩
    · rw [nullSpaceProjector_result] at h
      split_ifs at h
      cases h
      rfl
    rw [Outcome.bind_result_error] at h
    rcases h with h | ⟨xdot, -, h⟩
    · simp only [checkEquilibrium, heq, if_true] at h
      cases h
    · simp only [Outcome.pure] at h
      split at h
      · rename_i e2 he
        cases h
        exact extractAB_error c xdot _ he
      · split at h
        · rename_i e2 he
          cases h
          exact projectAB_error _ _ _ _ he
        · cases h
  · rw [Outcome.bind_result_error] at h
    rcases h with h | ⟨u, -, h⟩
    · have hq := validateQR_error _ _ _ _ e h
      cases e <;> simp [SetupError.isQRValidation] at hq <;> rfl
    · simp only [solveAndStore] at h
      split at h
      · rename_i e2 hm
        cases h
        rw [Mat.mul_error _ _ _ hm]
        rfl
      · cases h

/-- C8, amended: when the Jacobian `J` assembled by `SetupController` is rank
deficient, the projector (sized from the row count of `J`, not from its rank) has
fewer rows than the dimension `2 (cols(J) - rank(J))` of the null space of `F`, and
with `Q` sized for that dimension `SetupController` never completes and never calls
the solver; when the reference point passes the equilibrium check of line 101 the
failure reported is a shape failure. -/
theorem rank_deficient_jacobian_fails (lib : Solvers α) (c : ConstrainedLQRController α)
    (q0 u0 lambda0 : List α) (Q R J : Mat α)
    (hJ : (computeJacobian c q0).result = .ok J)
    (hdef : J.toMatrix.rank < J.rows)
    (hQ : Q.rows = 2 * (J.cols - J.toMatrix.rank)) :
    (∀ P, (nullSpaceProjector lib J).result = .ok P →
      P.rows = 2 * (J.cols - J.rows) ∧ P.rows < 2 * (J.cols - J.toMatrix.rank)) ∧
    Call.LinearQuadraticRegulator ∉ (SetupController lib c q0 u0 lambda0 Q R).calls ∧
    ∃ e, (SetupController lib c q0 u0 lambda0 Q R).result = .error e ∧
      (isZero (autoDiffToValueMatrix (xdot0_autodiff c (fullState c q0) u0 lambda0))
          equilibriumTolerance = true → e.isShapeMismatch = true) := by
  have hsize : ∀ P, (nullSpaceProjector lib J).result = .ok P →
      P.rows = 2 * (J.cols - J.rows) ∧ P.rows < 2 * (J.cols - J.toMatrix.rank) := by
    intro P hP
    obtain ⟨hle, hr, -, -⟩ := nullSpaceProjector_ok lib J P hP
    constructor <;> omega
  have hnocall : Call.LinearQuadraticRegulator ∉
      (SetupController lib c q0 u0 lambda0 Q R).calls := by
    intro hcall
    obtain ⟨lin, hlin, hv⟩ := (SetupController_calls_solver lib c q0 u0 lambda0 Q R).mp hcall
    obtain ⟨J2, hJ2, -, hP, -, -, -, hA, -⟩ :=
      setupLinearization_shapes lib c q0 u0 lambda0 lin hlin
    rw [hJ] at hJ2
    cases hJ2
    have h1 := (hsize lin.P hP).2
    obtain ⟨-, -, v3, -⟩ := (validateQR_ok _ _ _ _).mp hv
    omega
  refine ⟨hsize, hnocall, ?_⟩
  rcases Outcome.result_cases (SetupController lib c q0 u0 lambda0 Q R) with ⟨e, he⟩ | ⟨c2, h⟩
  · exact ⟨e, he, SetupController_error_is_shape lib c q0 u0 lambda0 Q R e he⟩
  · exfalso
    obtain ⟨lin, hlin, hv, -⟩ := SetupController_ok lib c q0 u0 lambda0 Q R c2 h
    exact hnocall ((SetupController_calls_solver lib c q0 u0 lambda0 Q R).mpr ⟨lin, hlin, hv⟩)

/-- The Jacobian assembled for the degenerate tree is `1 x 2` of rank zero. -/
theorem degenerate_jacobian :
    ∃ J, (computeJacobian degenerateController [0, 0]).result = .ok J ∧
      J.rows = 1 ∧ J.cols = 2 ∧ J.toMatrix.rank = 0 := by
  rcases Outcome.result_cases (computeJacobian degenerateController [0, 0]) with ⟨e, he⟩ | ⟨J, hJ⟩
  · exfalso
    simp [computeJacobian, Mat.commaInitializer, degenerateController,
      ConstrainedLQRController.create, degenerateTree, Mat.empty] at he
  · obtain ⟨hr, hco⟩ := computeJacobian_rows _ _ J hJ
    have hc := computeJacobian_ok _ _ J hJ
    have hr1 : J.rows = 1 := by
      simpa [degenerateController, ConstrainedLQRController.create, degenerateTree,
        Mat.empty] using hr
    refine ⟨J, hJ, hr1, hc, ?_⟩
    have hz : J.toMatrix = 0 := by
      ext i k
      have hi : i.1 < 1 := by
        have := i.2
        omega
      exact hco i.1 k.1 hi
    rw [hz, Matrix.rank_zero]

/-- C8 at the degenerate tree at the origin: with `Q = I₄` setup fails with a shape failure. -/
theorem rank_deficient_jacobian_fails_witness :
    ∃ J, (computeJacobian degenerateController [0, 0]).result = .ok J ∧
      J.toMatrix.rank < J.rows ∧
      (Mat.Identity 4 : Mat ℚ).rows = 2 * (J.cols - J.toMatrix.rank) ∧
      ∃ e, (SetupController degenerateSolvers degenerateController [0, 0] [0] [0]
          (Mat.Identity 4) (Mat.Identity 1)).result = .error e ∧
        e.isShapeMismatch = true := by
  obtain ⟨J, hJ, hr, hc, hrank⟩ := degenerate_jacobian
  have hdef : J.toMatrix.rank < J.rows := by omega
  have hQ : (Mat.Identity 4 : Mat ℚ).rows = 2 * (J.cols - J.toMatrix.rank) := by
    rw [hrank, hc]
    rfl
  obtain ⟨-, -, e, he, hshape⟩ := rank_deficient_jacobian_fails degenerateSolvers
    degenerateController [0, 0] [0] [0] (Mat.Identity 4) (Mat.Identity 1) J hJ hdef hQ
  refine ⟨J, hJ, hdef, hQ, e, he, hshape ?_⟩
  simp [xdot0_autodiff, degenerateController, ConstrainedLQRController.create, degenerateTree,
    exampleToolkit, affineDynamics, exampleM, exampleN, AutoDiffXd.dot, AutoDiffXd.scale,
    AutoDiffXd.add, autoDiffToValueMatrix, initializeAutoDiff, AutoDiffXd.ofScalar, isZero,
    equilibriumTolerance, fullState, List.range, List.range.loop]

/-- The degenerate tree with control `u0 = [1]` stops at the equilibrium demand. -/
theorem degenerate_nonequilibrium_run :
    (SetupController degenerateSolvers degenerateController [0, 0] [1] [0]
      (Mat.Identity 4) (Mat.Identity 1)).result = .error .demand_equilibrium := by
  simp [SetupController, Outcome.bind, Outcome.pure, setupLinearization, checkSizes,
    degenerateController, ConstrainedLQRController.create, degenerateTree, computeJacobian,
    Mat.commaInitializer, nullSpaceProjector, householderFactor, Mat.block, computeF,
    degenerateSolvers, Mat.transpose, checkEquilibrium, xdot0_autodiff, exampleToolkit,
    affineDynamics, exampleM, exampleN, AutoDiffXd.dot, AutoDiffXd.scale, AutoDiffXd.add,
    isZero, autoDiffToValueMatrix, initializeAutoDiff, fullState, AutoDiffXd.ofScalar,
    equilibriumTolerance, List.range, List.range.loop, Mat.empty]
  norm_num

/-- The degenerate tree at the origin with `Q = I₂`, `R = I₁`: setup completes. -/
theorem degenerate_setup_succeeds :
    ∃ c2, (SetupController degenerateSolvers degenerateController [0, 0] [0] [0]
      (Mat.Identity 2) (Mat.Identity 1)).result = .ok c2 := by
  apply Except.exists_ok_of_toBool
  simp [SetupController, Outcome.bind, Outcome.pure, setupLinearization, checkSizes,
    degenerateController, ConstrainedLQRController.create, degenerateTree, computeJacobian,
    Mat.commaInitializer, nullSpaceProjector, householderFactor, Mat.block, computeF,
    degenerateSolvers, Mat.ofRows, Mat.transpose, checkEquilibrium, xdot0_autodiff,
    exampleToolkit, affineDynamics, exampleM, exampleN, AutoDiffXd.dot, AutoDiffXd.scale,
    AutoDiffXd.add, isZero, autoDiffToValueMatrix, initializeAutoDiff, fullState,
    AutoDiffXd.ofScalar, equilibriumTolerance, List.range, List.range.loop, extractAB,
    autoDiffToGradientMatrix, numDerivatives, Mat.leftCols, projectAB, Mat.mul, Mat.prod,
    validateQR, Mat.Identity, solveAndStore, Mat.empty, Except.toBool]

/-- C8, counterexample: for the rank-deficient Jacobian row `[0, 0]` (rank 0, null
space of `F` of dimension 4) the projector still has `2 (2 - 1) = 2` rows and setup
with `Q = I₂` completes without any failure; with `Q = I₄` sized for the true
dimension but the non-equilibrium control `u0 = [1]`, the failure reported is the
equilibrium demand, which is not a shape failure. -/
theorem rank_deficient_failure_not_always_shape :
    ∃ J, (computeJacobian degenerateController [0, 0]).result = .ok J ∧
      J.toMatrix.rank < J.rows ∧
      (Mat.Identity 4 : Mat ℚ).rows = 2 * (J.cols - J.toMatrix.rank) ∧
      (∃ c2, (SetupController degenerateSolvers degenerateController [0, 0] [0] [0]
        (Mat.Identity 2) (Mat.Identity 1)).result = .ok c2) ∧
      (SetupController degenerateSolvers degenerateController [0, 0] [1] [0]
        (Mat.Identity 4) (Mat.Identity 1)).result = .error .demand_equilibrium ∧
      SetupError.demand_equilibrium.isShapeMismatch = false := by
  obtain ⟨J, hJ, hr, hc, hrank⟩ := degenerate_jacobian
  refine ⟨J, hJ, by omega, ?_, degenerate_setup_succeeds, degenerate_nonequilibrium_run, rfl⟩
  rw [hrank, hc]
  rfl

/-! ## The control-sensitivity block -/

/-- C3, evaluated at the failing input: for the example dynamics `xdot = M x + N u`
with `N = (0, 0, 1, 0)ᵀ`, `SetupController` reaches the linearisation, the extracted
`A` equals `M`, but the extracted `B` is the zero `4 x 1` matrix and not `N`. -/
theorem extracted_B_is_zero_for_affine_dynamics :
    ∃ lin, (setupLinearization exampleSolvers exampleController [0, 0] [0] [0]).result
        = .ok lin ∧
      lin.A.rows = 4 ∧ lin.A.cols = 4 ∧
      (∀ i j, i < 4 → j < 4 → lin.A.coeff i j = (exampleM.getD i []).getD j 0) ∧
      lin.B.rows = 4 ∧ lin.B.cols = 1 ∧
      (∀ i, i < 4 → lin.B.coeff i 0 = 0) ∧
      (exampleN.getD 2 []).getD 0 0 = 1 ∧
      lin.B.coeff 2 0 ≠ (exampleN.getD 2 []).getD 0 0 := by
  obtain ⟨lin, hlin⟩ := example_linearization_succeeds
  obtain ⟨-, J, P, xdot, A, B, -, -, hx, hAB, -, -, -, hA, hB⟩ :=
    setupLinearization_ok _ _ _ _ _ lin hlin
  have hxd : xdot = xdot0_autodiff exampleController (fullState exampleController [0, 0])
      [0] [0] := by
    simp only [checkEquilibrium] at hx
    split at hx
    · cases hx
      rfl
    · cases hx
  have hval : xdot = [⟨0, [0, 0, 1, 0, 0, 0]⟩, ⟨0, [0, 0, 0, 1, 0, 0]⟩,
      ⟨0, [0, 0, 0, 0, 0, 0]⟩, ⟨0, [0, 0, 0, 0, 0, 0]⟩] := by
    rw [hxd]
    simp [xdot0_autodiff, exampleController, ConstrainedLQRController.create, exampleTree,
      exampleToolkit, affineDynamics, exampleM, exampleN, AutoDiffXd.dot, AutoDiffXd.scale,
      AutoDiffXd.add, initializeAutoDiff, AutoDiffXd.ofScalar, fullState, List.range,
      List.range.loop]
  obtain ⟨a1, a2, b1, b2, -, a3, b3⟩ := extractAB_ok _ xdot A B hAB
  have hB0 : ∀ i, i < 4 → lin.B.coeff i 0 = 0 := by
    intro i hi
    rw [hB, b3, hval]
    interval_cases i <;>
      simp [exampleController, ConstrainedLQRController.create, exampleTree]
  refine ⟨lin, hlin, ?_, ?_, ?_, ?_, ?_, hB0, ?_, ?_⟩
  · rw [hA, a1, hval]
    rfl
  · rw [hA, a2]
    rfl
  · intro i j hi hj
    rw [hA, a3, hval]
    interval_cases i <;> interval_cases j <;> simp [exampleM]
  · rw [hB, b1, hval]
    rfl
  · rw [hB, b2]
    rfl
  · simp [exampleN]
  · rw [hB0 2 (by decide)]
    simp [exampleN]

end Claims

end dairlib.systems
